import Mathlib

/-!
# Hyper-parameter containers of gorse (`model/params.go`)

A shallow embedding of `Params` and `ParamsGrid` and of the operations defined on them,
followed by the properties established for them.

* A Go map is embedded as a duplicate-free association list.  The order of the list is the
  order in which a `range` loop visits the entries; lookups never depend on it.
* Maps are reference values.  The operations that allocate a map or assign into one (`Copy`,
  `Overwrite`, `Fill`) act on a store of allocated maps; the operations that only read take
  the contents of the map.
* A value of a map type is a reference to an allocated map or the nil map.  The nil map reads
  as a map without entries, and an assignment to an entry of it panics: `Fill`, the one
  operation that assigns into its receiver, takes map values and may panic.
* Go's `int` is taken at 64 bits (the width on the 64-bit targets the project is built for).
  Arithmetic on it wraps around in two's complement.
* A `float32` or `float64` is its IEEE 754 bit pattern.  The conversions to `float32` round to
  nearest, ties to even, as the language prescribes.
* A value of type `interface{}` is embedded as a closed sum over the dynamic types that the
  accessors distinguish, plus two dynamic types (`nil`, `int32`) that none of them accepts.
* The logger obtained from `base.Logger()` is embedded as the list of entries that a call
  records, returned next to its result; its `Fatal` ends the run.
* Of `json.Marshal` the embedding keeps whether it fails and with which error; the bytes it
  writes are a parameter of `ToString`.
-/

namespace Gorse

/-! ## Machine integers -/

/-- Range of a signed two's-complement integer of `w` bits. -/
def InRange (w : Nat) (i : Int) : Prop := -(2 : Int) ^ (w - 1) ≤ i ∧ i < (2 : Int) ^ (w - 1)

instance (w : Nat) (i : Int) : Decidable (InRange w i) := by
  unfold InRange; infer_instance

/-- Signed machine integers of `w` bits. -/
abbrev SInt (w : Nat) := { i : Int // InRange w i }

/-- Width in bits of Go's `int`. -/
def intSize : Nat := 64

/-- Reduction of an exact integer to the signed `w`-bit value with the same residue modulo
`2 ^ w`: the result of every Go conversion to, and arithmetic operation on, a signed type. -/
def wrapSigned (w : Nat) (x : Int) : Int :=
  (x + (2 : Int) ^ (w - 1)) % (2 : Int) ^ w - (2 : Int) ^ (w - 1)

/-! ## Floating point values -/

/-- An IEEE 754 binary32 value (`float32`), given by its 32 bits. -/
abbrev GoFloat32 := { b : Nat // b < 2 ^ 32 }

/-- An IEEE 754 binary64 value (`float64`), given by its 64 bits. -/
abbrev GoFloat64 := { b : Nat // b < 2 ^ 64 }

/-- Quotient `m / 2 ^ s` rounded to the nearest integer, a tie going to the even one. -/
def roundShift (m s : Nat) : Nat :=
  let q := m / 2 ^ s
  let r := m % 2 ^ s
  if 2 * r < 2 ^ s then q
  else if 2 ^ s < 2 * r then q + 1
  else if q % 2 = 0 then q else q + 1

/-- Bits of positive infinity in binary32; the finite magnitudes are the bit patterns below. -/
def float32Inf : Nat := 0x7F800000

/-- Position of the leading one bit of `m`, counted from 0, found by halving `m` at most
`fuel` times. -/
def leadingBitAux : Nat → Nat → Nat
  | 0, _ => 0
  | fuel + 1, m => if m < 2 then 0 else leadingBitAux fuel (m / 2) + 1

/-- Position of the leading one bit of `m`, counted from 0: the integer part of the binary
logarithm of `m`, for `m` positive. -/
def leadingBit (m : Nat) : Nat := leadingBitAux m m

/-- Exponent of the unit in the last place that binary32 has at the magnitude `m * 2 ^ e`,
for `m` positive: 23 places below the leading bit, and never below `-149`. -/
def roundExp (m : Nat) (e : Int) : Int := max (-149) ((leadingBit m : Int) + e - 23)

/-- The magnitude `m * 2 ^ e` in units of `2 ^ roundExp m e`, rounded to the nearest integer,
a tie going to the even one. -/
def roundSig (m : Nat) (e : Int) : Nat :=
  if roundExp m e ≤ e then m * 2 ^ (e - roundExp m e).toNat
  else roundShift m (roundExp m e - e).toNat

/-- The binary32 bit pattern (sign bit clear) that Go's conversion to `float32` gives for the
magnitude `m * 2 ^ e`: the significand is rounded to 24 bits (fewer in the subnormal range),
ties to even, and a magnitude that rounds past the largest finite value becomes infinity. -/
def float32Magnitude (m : Nat) (e : Int) : Nat :=
  if m = 0 then 0
  else min float32Inf ((roundExp m e + 149).toNat * 2 ^ 23 + roundSig m e)

theorem float32Magnitude_lt (m : Nat) (e : Int) : float32Magnitude m e < 2 ^ 31 := by
  unfold float32Magnitude
  split
  · norm_num
  · exact lt_of_le_of_lt (min_le_left _ _) (by norm_num [float32Inf])

/-- Magnitude bits of `float32(f)` for a `float64` with sign cleared: infinities stay
infinite, a NaN stays a (quiet) NaN keeping its leading payload bits, every other value is
rounded. -/
def narrowMagnitude (b : Nat) : Nat :=
  let E : Nat := b / 2 ^ 52 % 2 ^ 11
  let F : Nat := b % 2 ^ 52
  if E = 2047 then (if F = 0 then float32Inf else 0x7FC00000 + F / 2 ^ 29 % 2 ^ 22)
  else if E = 0 then float32Magnitude F (-1074)
  else float32Magnitude (2 ^ 52 + F) ((E : Int) - 1075)

theorem narrowMagnitude_lt (b : Nat) : narrowMagnitude b < 2 ^ 31 := by
  unfold narrowMagnitude
  simp only
  split
  · split
    · norm_num [float32Inf]
    · have : b % 2 ^ 52 / 2 ^ 29 % 2 ^ 22 < 2 ^ 22 := Nat.mod_lt _ (by norm_num)
      omega
  · split <;> exact float32Magnitude_lt _ _

/-- Conversion `float32(f)` of a `float64`. -/
def float64ToFloat32 (f : GoFloat64) : GoFloat32 :=
  ⟨f.val / 2 ^ 63 * 2 ^ 31 + narrowMagnitude f.val, by
    have h1 : f.val / 2 ^ 63 < 2 := by
      have := f.property
      omega
    have h2 := narrowMagnitude_lt f.val
    omega⟩

/-- Conversion `float32(i)` of an `int`. -/
def intToFloat32 (i : SInt intSize) : GoFloat32 :=
  ⟨(if i.val < 0 then 2 ^ 31 else 0) + float32Magnitude i.val.natAbs 0, by
    have h2 := float32Magnitude_lt i.val.natAbs 0
    split <;> omega⟩

/-- Value of a binary32 bit pattern whose exponent field is below 255, the sign bit ignored. -/
def float32MagValue (n : Nat) : ℚ :=
  if n / 2 ^ 23 % 2 ^ 8 = 0 then ((n % 2 ^ 23 : ℕ) : ℚ) * (2 : ℚ) ^ (-149 : ℤ)
  else ((2 ^ 23 + n % 2 ^ 23 : ℕ) : ℚ) * (2 : ℚ) ^ (((n / 2 ^ 23 % 2 ^ 8 : ℕ) : ℤ) - 150)

/-- Whether a `float32` is finite: its exponent field is not all ones. -/
def GoFloat32.IsFinite (f : GoFloat32) : Prop := f.val / 2 ^ 23 % 2 ^ 8 ≠ 255

instance (f : GoFloat32) : Decidable f.IsFinite := by
  unfold GoFloat32.IsFinite; infer_instance

/-- The rational number that a finite `float32` stands for. -/
def GoFloat32.toRat (f : GoFloat32) : ℚ :=
  (if f.val / 2 ^ 31 = 0 then 1 else -1) * float32MagValue f.val

/-- Value of a binary64 bit pattern whose exponent field is below 2047, the sign bit ignored. -/
def float64MagValue (b : Nat) : ℚ :=
  if b / 2 ^ 52 % 2 ^ 11 = 0 then ((b % 2 ^ 52 : ℕ) : ℚ) * (2 : ℚ) ^ (-1074 : ℤ)
  else ((2 ^ 52 + b % 2 ^ 52 : ℕ) : ℚ) * (2 : ℚ) ^ (((b / 2 ^ 52 % 2 ^ 11 : ℕ) : ℤ) - 1075)

/-- Whether a `float64` is finite: its exponent field is not all ones. -/
def GoFloat64.IsFinite (f : GoFloat64) : Prop := f.val / 2 ^ 52 % 2 ^ 11 ≠ 2047

instance (f : GoFloat64) : Decidable f.IsFinite := by
  unfold GoFloat64.IsFinite; infer_instance

/-- The rational number that a finite `float64` stands for. -/
def GoFloat64.toRat (f : GoFloat64) : ℚ :=
  (if f.val / 2 ^ 63 = 0 then 1 else -1) * float64MagValue f.val

/-- The `float32` value `r` is a rounding to nearest of the rational `x`: when `r` is finite no
finite `float32` is nearer to `x` than `r`; when `r` is not finite the magnitude of `x` is at
least `2 ^ 128 - 2 ^ 103`, halfway between the largest finite `float32` and `2 ^ 128`. -/
def RoundedToNearest (x : ℚ) (r : GoFloat32) : Prop :=
  (r.IsFinite → ∀ y : GoFloat32, y.IsFinite → |r.toRat - x| ≤ |y.toRat - x|) ∧
    (¬ r.IsFinite → (2 : ℚ) ^ 128 - (2 : ℚ) ^ 103 ≤ |x|)

theorem wrapSigned_inRange (w : Nat) (hw : 0 < w) (x : Int) : InRange w (wrapSigned w x) := by
  unfold InRange wrapSigned
  have hp : (2 : Int) ^ w = 2 * (2 : Int) ^ (w - 1) := by
    obtain ⟨n, rfl⟩ : ∃ n, w = n + 1 := ⟨w - 1, by omega⟩
    simp [pow_succ, mul_comm]
  have hpos : (0 : Int) < (2 : Int) ^ (w - 1) := by positivity
  have h0 := Int.emod_nonneg (x + (2 : Int) ^ (w - 1)) (by omega : (2 : Int) ^ w ≠ 0)
  have h1 := Int.emod_lt_of_pos (x + (2 : Int) ^ (w - 1)) (by omega : (0 : Int) < (2 : Int) ^ w)
  constructor <;> omega

theorem wrapSigned_eq_self (w : Nat) (hw : 0 < w) (x : Int) (h : InRange w x) :
    wrapSigned w x = x := by
  unfold InRange at h
  unfold wrapSigned
  have hp : (2 : Int) ^ w = 2 * (2 : Int) ^ (w - 1) := by
    obtain ⟨n, rfl⟩ : ∃ n, w = n + 1 := ⟨w - 1, by omega⟩
    simp [pow_succ, mul_comm]
  rw [Int.emod_eq_of_lt (by omega) (by omega)]
  omega

/-- Conversion `int64(i)` of an `int`. -/
def intToInt64 (i : SInt intSize) : SInt 64 :=
  ⟨wrapSigned 64 i.val, wrapSigned_inRange 64 (by norm_num) i.val⟩

/-! ## Names and dynamically typed values -/

/-- ParamName is the type of hyper-parameter names (`type ParamName string`). -/
abbrev ParamName := String

def Lr : ParamName := "Lr"
def Reg : ParamName := "Reg"
def NEpochs : ParamName := "NEpochs"
def NFactors : ParamName := "NFactors"
def RandomState : ParamName := "RandomState"
def InitMean : ParamName := "InitMean"
def InitStdDev : ParamName := "InitStdDev"
def Alpha : ParamName := "Alpha"
def Similarity : ParamName := "Similarity"
def UseFeature : ParamName := "UseFeature"

def SimilarityCosine : String := "Cosine"
def SimilarityDot : String := "Dot"

/-- Dynamic values held in an `interface{}`: one constructor per dynamic type. -/
inductive Value where
  | nil
  | bool (b : Bool)
  | int (i : SInt intSize)
  | int32 (i : SInt 32)
  | int64 (i : SInt 64)
  | float32 (f : GoFloat32)
  | float64 (f : GoFloat64)
  | string (s : String)
  deriving DecidableEq

/-- Dynamic types of the embedded values. -/
inductive Kind where
  | nil | bool | int | int32 | int64 | float32 | float64 | string
  deriving DecidableEq, Repr

/-- Dynamic type of a value. -/
def Value.kind : Value → Kind
  | .nil => .nil
  | .bool _ => .bool
  | .int _ => .int
  | .int32 _ => .int32
  | .int64 _ => .int64
  | .float32 _ => .float32
  | .float64 _ => .float64
  | .string _ => .string

/-! ## Go maps -/

/-- Value bound to `k` in an association list. -/
def lookupEntry {V : Type} (k : ParamName) : List (ParamName × V) → Option V
  | [] => none
  | (k', v) :: rest => if k' = k then some v else lookupEntry k rest

/-- Association list after `m[k] = v`: the binding of `k` is replaced where it stands, or
added when `k` had none. -/
def assignEntry {V : Type} (k : ParamName) (v : V) : List (ParamName × V) → List (ParamName × V)
  | [] => [(k, v)]
  | (k', v') :: rest =>
    if k' = k then (k, v) :: rest else (k', v') :: assignEntry k v rest

theorem keys_assignEntry {V : Type} (k : ParamName) (v : V) (l : List (ParamName × V)) :
    (assignEntry k v l).map Prod.fst =
      if k ∈ l.map Prod.fst then l.map Prod.fst else l.map Prod.fst ++ [k] := by
  induction l with
  | nil => simp [assignEntry]
  | cons e rest ih =>
    obtain ⟨k', v'⟩ := e
    by_cases h : k' = k
    · subst h; simp [assignEntry]
    · have h' : ¬ k = k' := fun e => h e.symm
      simp only [assignEntry, if_neg h, List.map_cons, ih, List.mem_cons, h', false_or]
      split <;> simp

theorem nodup_assignEntry {V : Type} (k : ParamName) (v : V) (l : List (ParamName × V))
    (h : (l.map Prod.fst).Nodup) : ((assignEntry k v l).map Prod.fst).Nodup := by
  rw [keys_assignEntry]
  split
  · exact h
  · rename_i hk
    exact List.Nodup.append h (List.nodup_singleton k) (by simpa using hk)

/-- A Go map from parameter names to `V`: every key is bound once. -/
structure GoMap (V : Type) where
  entries : List (ParamName × V)
  nodup : (entries.map Prod.fst).Nodup

namespace GoMap

variable {V : Type}

/-- Map created by `make`. -/
def empty : GoMap V := ⟨[], List.nodup_nil⟩

/-- Comma-ok lookup `v, exist := m[k]`. -/
def find? (m : GoMap V) (k : ParamName) : Option V := lookupEntry k m.entries

/-- Assignment `m[k] = v`. -/
def assign (m : GoMap V) (k : ParamName) (v : V) : GoMap V :=
  ⟨assignEntry k v m.entries, nodup_assignEntry k v m.entries m.nodup⟩

/-- Keys of the map. -/
def keys (m : GoMap V) : List ParamName := m.entries.map Prod.fst

/-- Number of entries, `len(m)`. -/
def len (m : GoMap V) : Nat := m.entries.length

end GoMap

/-! ## Diagnostics -/

/-- Severity of a log entry. -/
inductive Level where
  | error | fatal
  deriving DecidableEq, Repr

/-- Modelled from the spec: the logger that `base.Logger()` returns is not among the sources;
the spec asks of it only to record a message with its fields.  One recorded entry: level,
message and string fields. -/
structure LogEntry where
  level : Level
  msg : String
  fields : List (String × String)
  deriving DecidableEq, Repr

/-- Result of `reflect.TypeOf(name).Name()` for `name : ParamName`: the name of the static
type of the key. -/
def paramNameTypeName : String := "ParamName"

/-- Entry recorded by the `default` branch of the typed getters. -/
def typeMismatch (name : ParamName) : LogEntry :=
  { level := .error, msg := "type mismatch",
    fields := [("param_name", name), ("actual_type", paramNameTypeName)] }

/-! ## Store of maps

A map is a reference value: two variables may denote the same map, and an assignment through
one is seen through the other.  A store holds the maps allocated so far; a reference is the
position of its map in the store. -/

/-- Reference to an allocated map. -/
abbrev Ref := Nat

/-- A value of a map type: the nil map, or a reference to an allocated map. -/
inductive MapRef where
  | nil
  | ref (r : Ref)
  deriving DecidableEq, Repr

/-- Store of the allocated maps with values in `V`. -/
structure Store (V : Type) where
  cells : List (GoMap V)

namespace Store

variable {V : Type}

/-- References that denote a map of the store. -/
def Valid (s : Store V) (r : Ref) : Prop := r < s.cells.length

instance (s : Store V) (r : Ref) : Decidable (s.Valid r) := by
  unfold Valid; infer_instance

/-- Contents of the map that `r` denotes. -/
def read (s : Store V) (r : Ref) : GoMap V := s.cells.getD r GoMap.empty

/-- Allocation `make(map[ParamName]V)`: the store with one more, empty, map and the
reference to it. -/
def make (s : Store V) : Store V × Ref := (⟨s.cells ++ [GoMap.empty]⟩, s.cells.length)

/-- Assignment `m[k] = v` through the reference `r`. -/
def store (s : Store V) (r : Ref) (k : ParamName) (v : V) : Store V :=
  ⟨s.cells.set r ((s.read r).assign k v)⟩

/-- Contents seen through a map value: the nil map reads as a map without entries. -/
def contents (s : Store V) : MapRef → GoMap V
  | .nil => GoMap.empty
  | .ref r => s.read r

/-- Assignment `m[k] = v` through a map value.  `none` is the panic of an assignment to an
entry of the nil map; a reference that denotes no map of the store is no better than the nil
map. -/
def assignAt (s : Store V) : MapRef → ParamName → V → Option (Store V)
  | .nil, _, _ => none
  | .ref r, k, v => if s.Valid r then some (s.store r k v) else none

end Store

/-! ## Params -/

/-- Params stores hyper-parameters for a model: a map between names and `interface{}` values. -/
abbrev Params := GoMap Value

namespace Params

/-- Copy hyper-parameters: allocates `newParams` and assigns every entry of the receiver to
it.  Returns the store after the call and the reference returned. -/
def Copy (s : Store Value) (parameters : Ref) : Store Value × Ref :=
  let (s0, newParams) := s.make
  ((s0.read parameters).entries.foldl (fun st kv => st.store newParams kv.1 kv.2) s0, newParams)

/-- GetBool gets a boolean parameter by name; the second component is what it logs. -/
def GetBool (parameters : Params) (name : ParamName) (_default : Bool) : Bool × List LogEntry :=
  match parameters.find? name with
  | some val =>
    match val with
    | .bool b => (b, [])
    | _ => (_default, [typeMismatch name])
  | none => (_default, [])

/-- GetInt gets an integer parameter by name; the second component is what it logs. -/
def GetInt (parameters : Params) (name : ParamName) (_default : SInt intSize) :
    SInt intSize × List LogEntry :=
  match parameters.find? name with
  | some val =>
    match val with
    | .int i => (i, [])
    | _ => (_default, [typeMismatch name])
  | none => (_default, [])

/-- GetInt64 gets an int64 parameter by name, converting a stored `int`; the second component
is what it logs. -/
def GetInt64 (parameters : Params) (name : ParamName) (_default : SInt 64) :
    SInt 64 × List LogEntry :=
  match parameters.find? name with
  | some val =>
    match val with
    | .int64 i => (i, [])
    | .int i => (intToInt64 i, [])
    | _ => (_default, [typeMismatch name])
  | none => (_default, [])

/-- GetFloat32 gets a float32 parameter by name, converting a stored `float64` or `int`; the
second component is what it logs. -/
def GetFloat32 (parameters : Params) (name : ParamName) (_default : GoFloat32) :
    GoFloat32 × List LogEntry :=
  match parameters.find? name with
  | some val =>
    match val with
    | .float32 f => (f, [])
    | .float64 f => (float64ToFloat32 f, [])
    | .int i => (intToFloat32 i, [])
    | _ => (_default, [typeMismatch name])
  | none => (_default, [])

/-- GetString gets a string parameter.  The type assertion `val.(string)` panics when the
dynamic type is not `string`: the call then returns nothing, which is `none`. -/
def GetString (parameters : Params) (name : ParamName) (_default : String) : Option String :=
  match parameters.find? name with
  | some val =>
    match val with
    | .string s => some s
    | _ => none
  | none => some _default

/-- Overwrite: allocates `merged`, assigns every entry of the receiver to it, then every entry
of `params`.  Returns the store after the call and the reference returned. -/
def Overwrite (s : Store Value) (parameters params : Ref) : Store Value × Ref :=
  let (s0, merged) := s.make
  let s1 := (s0.read parameters).entries.foldl (fun st kv => st.store merged kv.1 kv.2) s0
  let s2 := (s1.read params).entries.foldl (fun st kv => st.store merged kv.1 kv.2) s1
  (s2, merged)

end Params

/-! ## Serialization

`ToString` hands the map to `json.Marshal` of the standard library.  What the embedding keeps
of that function is whether it fails, and with which error; the bytes it writes for a map it
can encode are a parameter. -/

/-- How a call ends: it returns a value, or the process is terminated after the entries of
`log` were recorded. -/
inductive Run (α : Type) where
  | returns (a : α)
  | exits (log : List LogEntry)
  deriving DecidableEq

/-- The error `*json.UnsupportedValueError`; `str` is the text of the value that has no
encoding. -/
structure UnsupportedValueError where
  str : String
  deriving DecidableEq, Repr

/-- Text of `err.Error()`. -/
def UnsupportedValueError.Error (err : UnsupportedValueError) : String :=
  "json: unsupported value: " ++ err.str

/-- Text that `strconv.FormatFloat` gives for a value that is not finite, from its sign bit
and whether its fraction field is zero. -/
def nonFiniteText (negative fractionZero : Bool) : String :=
  if fractionZero then (if negative then "-Inf" else "+Inf") else "NaN"

/-- The error, if any, that `json.Marshal` raises for a stored value: a floating point value
that is infinite or NaN has no encoding; every other value has one. -/
def Value.jsonError : Value → Option UnsupportedValueError
  | .float32 f =>
    if f.IsFinite then none
    else some ⟨nonFiniteText (decide (f.val / 2 ^ 31 ≠ 0)) (decide (f.val % 2 ^ 23 = 0))⟩
  | .float64 f =>
    if f.IsFinite then none
    else some ⟨nonFiniteText (decide (f.val / 2 ^ 63 ≠ 0)) (decide (f.val % 2 ^ 52 = 0))⟩
  | _ => none

/-- A stored value is representable in JSON when `json.Marshal` has an encoding for it. -/
def Value.Representable (v : Value) : Prop := v.jsonError = none

instance (v : Value) : Decidable v.Representable := by
  unfold Value.Representable; infer_instance

/-- Whether the first sequence of characters comes before the second in lexicographic order,
characters compared by code point: the order in which `json.Marshal` sorts the keys. -/
def lexLt : List Char → List Char → Bool
  | _, [] => false
  | [], _ :: _ => true
  | a :: as, b :: bs =>
    if a.toNat < b.toNat then true else if b.toNat < a.toNat then false else lexLt as bs

/-- Insertion of an entry into a list of entries that is sorted by key. -/
def insertByKey {V : Type} (kv : ParamName × V) : List (ParamName × V) → List (ParamName × V)
  | [] => [kv]
  | e :: rest =>
    if lexLt kv.1.data e.1.data then kv :: e :: rest else e :: insertByKey kv rest

/-- The entries sorted by key: the order in which `json.Marshal` encodes a map. -/
def sortByKey {V : Type} (l : List (ParamName × V)) : List (ParamName × V) :=
  l.foldr insertByKey []

/-- Modelled from the documentation of `encoding/json`, which is not part of the repository:
the call `json.Marshal(parameters)`.  The entries are encoded in the order of their keys and
the first value without an encoding makes the call fail with its error; when every value has
one the call returns the bytes `encode parameters`. -/
def jsonMarshal (encode : Params → String) (parameters : Params) :
    Except UnsupportedValueError String :=
  match (sortByKey parameters.entries).findSome? (fun kv => kv.2.jsonError) with
  | some err => .error err
  | none => .ok (encode parameters)

/-- Modelled from the spec: `Fatal` of the logger that `base.Logger()` returns, which is not
among the sources, records the entry and terminates the calling process.  The entry that
`ToString` passes to it. -/
def failedToConvert (err : UnsupportedValueError) : LogEntry :=
  { level := .fatal, msg := "failed to convert to string", fields := [("error", err.Error)] }

namespace Params

/-- ToString: the bytes of `json.Marshal(parameters)` as a string; when `json.Marshal` fails
the error is logged with `Fatal`, which ends the run. -/
def ToString (encode : Params → String) (parameters : Params) : Run String :=
  match jsonMarshal encode parameters with
  | .error err => .exits [failedToConvert err]
  | .ok b => .returns b

end Params

/-! ## ParamsGrid -/

/-- ParamsGrid contains candidates for grid search. -/
abbrev ParamsGrid := GoMap (List Value)

namespace ParamsGrid

/-- Number of keys of the grid, `len(grid)`. -/
def Len (grid : ParamsGrid) : Int := grid.len

/-- NumCombinations: the running product of the lengths of the candidate sequences, in `int`
arithmetic. -/
def NumCombinations (grid : ParamsGrid) : Int :=
  grid.entries.foldl (fun count kv => wrapSigned intSize (count * (kv.2.length : Int))) 1

/-- The loop of `Fill` over the entries of `_default` that remain to be visited: an entry
whose key the receiver lacks is assigned to the receiver.  `none` is the panic of an
assignment to an entry of the nil map. -/
def fillLoop (grid : MapRef) :
    List (ParamName × List Value) → Store (List Value) → Option (Store (List Value))
  | [], st => some st
  | kv :: rest, st =>
    match (st.contents grid).find? kv.1 with
    | none => (st.assignAt grid kv.1 kv.2).bind (fillLoop grid rest)
    | some _ => fillLoop grid rest st

/-- Fill: every entry of `_default` whose key the receiver lacks is assigned to the receiver.
Returns the store after the call, or `none` when the call panics, which it does when an entry
is to be assigned and the receiver is the nil map. -/
def Fill (s : Store (List Value)) (grid _default : MapRef) : Option (Store (List Value)) :=
  fillLoop grid (s.contents _default).entries s

end ParamsGrid

/-! ## Facts about the map model -/

theorem lookupEntry_assignEntry_self {V : Type} (k : ParamName) (v : V)
    (l : List (ParamName × V)) : lookupEntry k (assignEntry k v l) = some v := by
  induction l with
  | nil => simp [assignEntry, lookupEntry]
  | cons e rest ih =>
    obtain ⟨k', v'⟩ := e
    by_cases h : k' = k
    · simp [assignEntry, lookupEntry, h]
    · simp [assignEntry, lookupEntry, h, ih]

theorem lookupEntry_assignEntry_ne {V : Type} (k k' : ParamName) (v : V)
    (l : List (ParamName × V)) (hne : k' ≠ k) :
    lookupEntry k' (assignEntry k v l) = lookupEntry k' l := by
  induction l with
  | nil =>
    have : ¬ k = k' := fun e => hne e.symm
    simp [assignEntry, lookupEntry, this]
  | cons e rest ih =>
    obtain ⟨k0, v0⟩ := e
    by_cases h : k0 = k
    · subst h
      have : ¬ k0 = k' := fun e => hne e.symm
      simp [assignEntry, lookupEntry, this]
    · by_cases h2 : k0 = k'
      · subst h2
        simp [assignEntry, lookupEntry, h]
      · simp [assignEntry, lookupEntry, h, h2, ih]

theorem lookupEntry_eq_none_iff {V : Type} (k : ParamName) (l : List (ParamName × V)) :
    lookupEntry k l = none ↔ k ∉ l.map Prod.fst := by
  induction l with
  | nil => simp [lookupEntry]
  | cons e rest ih =>
    obtain ⟨k0, v0⟩ := e
    by_cases h : k0 = k
    · simp [lookupEntry, h]
    · have h' : ¬ k = k0 := fun e => h e.symm
      simp only [lookupEntry, if_neg h, ih, List.map_cons, List.mem_cons, h', false_or]

namespace GoMap

variable {V : Type}

theorem find?_empty (k : ParamName) : (empty : GoMap V).find? k = none := rfl

theorem find?_assign_self (m : GoMap V) (k : ParamName) (v : V) :
    (m.assign k v).find? k = some v :=
  lookupEntry_assignEntry_self k v m.entries

theorem find?_assign_ne (m : GoMap V) (k k' : ParamName) (v : V) (hne : k' ≠ k) :
    (m.assign k v).find? k' = m.find? k' :=
  lookupEntry_assignEntry_ne k k' v m.entries hne

theorem find?_eq_none_iff (m : GoMap V) (k : ParamName) : m.find? k = none ↔ k ∉ m.keys :=
  lookupEntry_eq_none_iff k m.entries

theorem mem_keys_iff (m : GoMap V) (k : ParamName) : k ∈ m.keys ↔ ∃ v, m.find? k = some v := by
  rw [← not_iff_not, ← find?_eq_none_iff]
  cases h : m.find? k <;> simp

/-- The map after assigning the entries of `l`, in order. -/
def assignAll (m : GoMap V) (l : List (ParamName × V)) : GoMap V :=
  l.foldl (fun acc kv => acc.assign kv.1 kv.2) m

theorem find?_assignAll (m : GoMap V) (l : List (ParamName × V))
    (hl : (l.map Prod.fst).Nodup) (k : ParamName) :
    (m.assignAll l).find? k = (lookupEntry k l).orElse (fun _ => m.find? k) := by
  induction l generalizing m with
  | nil => simp [assignAll, lookupEntry]
  | cons e rest ih =>
    obtain ⟨k0, v0⟩ := e
    simp only [List.map_cons, List.nodup_cons] at hl
    have ih' := ih (m.assign k0 v0) hl.2
    simp only [assignAll, List.foldl_cons] at ih' ⊢
    rw [ih']
    by_cases h : k0 = k
    · subst h
      have hn : lookupEntry k0 rest = none := (lookupEntry_eq_none_iff k0 rest).2 hl.1
      simp [lookupEntry, hn, find?_assign_self]
    · have h' : k ≠ k0 := fun e => h e.symm
      simp [lookupEntry, h, find?_assign_ne _ _ _ _ h']

end GoMap

namespace Store

variable {V : Type}

theorem valid_make (s : Store V) (r : Ref) (h : s.Valid r) : s.make.1.Valid r := by
  have h' : r < s.cells.length := h
  show r < (s.cells ++ [GoMap.empty]).length
  rw [List.length_append, List.length_singleton]
  exact Nat.lt_succ_of_lt h'

theorem valid_make_new (s : Store V) : s.make.1.Valid s.make.2 := by
  simp [Valid, make]

theorem make_ne (s : Store V) (r : Ref) (h : s.Valid r) : r ≠ s.make.2 := by
  have h' : r < s.cells.length := h
  exact Nat.ne_of_lt h'

theorem read_make (s : Store V) (r : Ref) (h : s.Valid r) : s.make.1.read r = s.read r := by
  simp only [Valid] at h
  simp [read, make, List.getD_eq_getElem?_getD, List.getElem?_append_left h]

theorem read_make_new (s : Store V) : s.make.1.read s.make.2 = GoMap.empty := by
  simp [read, make, List.getD_eq_getElem?_getD]

theorem valid_store (s : Store V) (r r' : Ref) (k : ParamName) (v : V) :
    (s.store r k v).Valid r' ↔ s.Valid r' := by
  simp [Valid, store]

theorem read_store_self (s : Store V) (r : Ref) (k : ParamName) (v : V) (h : s.Valid r) :
    (s.store r k v).read r = (s.read r).assign k v := by
  simp only [Valid] at h
  simp [read, store, List.getD_eq_getElem?_getD, List.getElem?_set, h]

theorem read_store_ne (s : Store V) (r r' : Ref) (k : ParamName) (v : V) (hne : r' ≠ r) :
    (s.store r k v).read r' = s.read r' := by
  have : ¬ r = r' := fun e => hne e.symm
  simp [read, store, List.getD_eq_getElem?_getD, List.getElem?_set, this]

/-- The store after assigning the entries of `l`, in order, through `r`. -/
def storeAll (s : Store V) (r : Ref) (l : List (ParamName × V)) : Store V :=
  l.foldl (fun st kv => st.store r kv.1 kv.2) s

theorem valid_storeAll (s : Store V) (r r' : Ref) (l : List (ParamName × V)) :
    (s.storeAll r l).Valid r' ↔ s.Valid r' := by
  induction l generalizing s with
  | nil => simp [storeAll]
  | cons e rest ih =>
    simp only [storeAll, List.foldl_cons] at ih ⊢
    rw [ih, valid_store]

theorem read_storeAll_self (s : Store V) (r : Ref) (l : List (ParamName × V))
    (h : s.Valid r) : (s.storeAll r l).read r = (s.read r).assignAll l := by
  induction l generalizing s with
  | nil => simp [storeAll, GoMap.assignAll]
  | cons e rest ih =>
    have ih' := ih (s.store r e.1 e.2) ((valid_store s r r e.1 e.2).2 h)
    simp only [storeAll, GoMap.assignAll, List.foldl_cons] at ih' ⊢
    rw [ih', read_store_self s r e.1 e.2 h]

theorem read_storeAll_ne (s : Store V) (r r' : Ref) (l : List (ParamName × V))
    (hne : r' ≠ r) : (s.storeAll r l).read r' = s.read r' := by
  induction l generalizing s with
  | nil => simp [storeAll]
  | cons e rest ih =>
    have ih' := ih (s.store r e.1 e.2)
    simp only [storeAll, List.foldl_cons] at ih' ⊢
    rw [ih', read_store_ne s r r' e.1 e.2 hne]

end Store

namespace GoMap

variable {V : Type}

theorem find?_assignAll_empty (l : List (ParamName × V)) (hl : (l.map Prod.fst).Nodup)
    (k : ParamName) : ((empty : GoMap V).assignAll l).find? k = lookupEntry k l := by
  rw [find?_assignAll _ _ hl, find?_empty]
  cases lookupEntry k l <;> rfl

/-- The map after offering the entries of `l`, in order, each kept only if its key is still
unbound. -/
def fillAll (m : GoMap V) (l : List (ParamName × V)) : GoMap V :=
  l.foldl
    (fun acc kv =>
      match acc.find? kv.1 with
      | none => acc.assign kv.1 kv.2
      | some _ => acc)
    m

theorem find?_fillAll (m : GoMap V) (l : List (ParamName × V)) (k : ParamName) :
    (m.fillAll l).find? k = (m.find? k).orElse (fun _ => lookupEntry k l) := by
  induction l generalizing m with
  | nil => cases h : m.find? k <;> simp [fillAll, lookupEntry, h]
  | cons e rest ih =>
    obtain ⟨k0, v0⟩ := e
    cases h0 : m.find? k0 with
    | none =>
      have ih' := ih (m.assign k0 v0)
      simp only [fillAll, List.foldl_cons, h0] at ih' ⊢
      rw [ih']
      by_cases h : k0 = k
      · subst h
        simp [lookupEntry, find?_assign_self, h0]
      · have h' : k ≠ k0 := fun e => h e.symm
        simp [lookupEntry, h, find?_assign_ne _ _ _ _ h']
    | some w =>
      have ih' := ih m
      simp only [fillAll, List.foldl_cons, h0] at ih' ⊢
      rw [ih']
      by_cases h : k0 = k
      · subst h
        simp [h0]
      · simp [lookupEntry, h]

theorem fillAll_of_bound (m : GoMap V) (l : List (ParamName × V))
    (h : ∀ k ∈ l.map Prod.fst, m.find? k ≠ none) : m.fillAll l = m := by
  induction l with
  | nil => rfl
  | cons e rest ih =>
    have he : m.find? e.1 ≠ none := h e.1 (by simp)
    have hrest : ∀ k ∈ rest.map Prod.fst, m.find? k ≠ none := fun k hk =>
      h k (by simp only [List.map_cons, List.mem_cons]; exact Or.inr hk)
    have ih' := ih hrest
    cases h0 : m.find? e.1 with
    | none => exact absurd h0 he
    | some w =>
      simp only [fillAll, List.foldl_cons, h0] at ih' ⊢
      exact ih'

theorem fillAll_self (m : GoMap V) : m.fillAll m.entries = m :=
  fillAll_of_bound m m.entries (fun k hk h0 => (find?_eq_none_iff m k).1 h0 hk)

end GoMap

theorem wrapSigned_modEq (w : Nat) (x : Int) : wrapSigned w x ≡ x [ZMOD (2 : Int) ^ w] := by
  unfold wrapSigned
  have h : (x + (2 : Int) ^ (w - 1)) % (2 : Int) ^ w ≡ x + (2 : Int) ^ (w - 1)
      [ZMOD (2 : Int) ^ w] := Int.mod_modEq _ _
  simpa using h.sub_right ((2 : Int) ^ (w - 1))

theorem wrapSigned_congr (w : Nat) (a b : Int) (h : a ≡ b [ZMOD (2 : Int) ^ w]) :
    wrapSigned w a = wrapSigned w b := by
  unfold wrapSigned
  have h' : (a + (2 : Int) ^ (w - 1)) % (2 : Int) ^ w = (b + (2 : Int) ^ (w - 1)) % (2 : Int) ^ w :=
    h.add_right _
  rw [h']

namespace ParamsGrid

/-- The product, over the entries of the grid, of the number of candidates of the entry, as an
exact integer. -/
def exactProduct (grid : ParamsGrid) : Int :=
  (grid.entries.map (fun kv => (kv.2.length : Int))).prod

theorem foldl_count (l : List (ParamName × List Value)) (a : Int) :
    l.foldl (fun count kv => wrapSigned intSize (count * (kv.2.length : Int)))
        (wrapSigned intSize a) =
      wrapSigned intSize (a * (l.map (fun kv => (kv.2.length : Int))).prod) := by
  induction l generalizing a with
  | nil => simp
  | cons e rest ih =>
    simp only [List.foldl_cons, List.map_cons, List.prod_cons]
    rw [wrapSigned_congr intSize (wrapSigned intSize a * (e.2.length : Int)) (a * (e.2.length : Int))
      ((wrapSigned_modEq intSize a).mul_right _), ih, mul_assoc]

theorem numCombinations_eq_wrap (grid : ParamsGrid) :
    grid.NumCombinations = wrapSigned intSize grid.exactProduct := by
  have h1 : (1 : Int) = wrapSigned intSize 1 := by decide
  unfold NumCombinations exactProduct
  rw [h1, foldl_count, one_mul]

end ParamsGrid

namespace Params

theorem read_overwrite (s : Store Value) (p q : Ref) (hp : s.Valid p) (hq : s.Valid q) :
    (Overwrite s p q).1.read (Overwrite s p q).2 =
      ((GoMap.empty : Params).assignAll (s.read p).entries).assignAll (s.read q).entries := by
  have hm : s.make.1.Valid s.make.2 := s.valid_make_new
  show ((s.make.1.storeAll s.make.2 (s.make.1.read p).entries).storeAll s.make.2
      ((s.make.1.storeAll s.make.2 (s.make.1.read p).entries).read q).entries).read s.make.2 = _
  rw [Store.read_storeAll_self _ _ _ ((Store.valid_storeAll _ _ _ _).2 hm),
    Store.read_storeAll_self _ _ _ hm, Store.read_storeAll_ne _ _ _ _ (s.make_ne q hq),
    s.read_make p hp, s.read_make q hq, s.read_make_new]

theorem overwrite_frame (s : Store Value) (p q r : Ref) (hr : s.Valid r) :
    (Overwrite s p q).1.read r = s.read r := by
  show ((s.make.1.storeAll s.make.2 (s.make.1.read p).entries).storeAll s.make.2
      ((s.make.1.storeAll s.make.2 (s.make.1.read p).entries).read q).entries).read r = _
  rw [Store.read_storeAll_ne _ _ _ _ (s.make_ne r hr),
    Store.read_storeAll_ne _ _ _ _ (s.make_ne r hr), s.read_make r hr]

theorem read_copy (s : Store Value) (p : Ref) (hp : s.Valid p) :
    (Copy s p).1.read (Copy s p).2 = (GoMap.empty : Params).assignAll (s.read p).entries := by
  have hm : s.make.1.Valid s.make.2 := s.valid_make_new
  show (s.make.1.storeAll s.make.2 (s.make.1.read p).entries).read s.make.2 = _
  rw [Store.read_storeAll_self _ _ _ hm, s.read_make p hp, s.read_make_new]

theorem copy_frame (s : Store Value) (p r : Ref) (hr : s.Valid r) :
    (Copy s p).1.read r = s.read r := by
  show (s.make.1.storeAll s.make.2 (s.make.1.read p).entries).read r = _
  rw [Store.read_storeAll_ne _ _ _ _ (s.make_ne r hr), s.read_make r hr]

end Params

namespace ParamsGrid

/-- The store that the loop of `Fill` leaves after the entries `l` when the receiver is the
allocated map at `g`. -/
def fillRef (s : Store (List Value)) (g : Ref) (l : List (ParamName × List Value)) :
    Store (List Value) :=
  l.foldl
    (fun st kv =>
      match (st.read g).find? kv.1 with
      | none => st.store g kv.1 kv.2
      | some _ => st)
    s

theorem fillLoop_ref (g : Ref) (l : List (ParamName × List Value)) (st : Store (List Value))
    (hg : st.Valid g) : fillLoop (.ref g) l st = some (fillRef st g l) := by
  induction l generalizing st with
  | nil => rfl
  | cons e rest ih =>
    cases h0 : (st.read g).find? e.1 with
    | none =>
      have h1 : fillLoop (.ref g) (e :: rest) st = fillLoop (.ref g) rest (st.store g e.1 e.2) := by
        simp [fillLoop, Store.contents, Store.assignAt, h0, hg]
      have h2 : fillRef st g (e :: rest) = fillRef (st.store g e.1 e.2) g rest := by
        simp [fillRef, List.foldl_cons, h0]
      rw [h1, h2, ih _ ((Store.valid_store st g g e.1 e.2).2 hg)]
    | some w =>
      have h1 : fillLoop (.ref g) (e :: rest) st = fillLoop (.ref g) rest st := by
        simp [fillLoop, Store.contents, h0]
      have h2 : fillRef st g (e :: rest) = fillRef st g rest := by
        simp [fillRef, List.foldl_cons, h0]
      rw [h1, h2, ih _ hg]

theorem fill_ref (s : Store (List Value)) (g : Ref) (d : MapRef) (hg : s.Valid g) :
    Fill s (.ref g) d = some (fillRef s g (s.contents d).entries) :=
  fillLoop_ref g (s.contents d).entries s hg

theorem valid_fillRef (s : Store (List Value)) (g r : Ref) (l : List (ParamName × List Value)) :
    (fillRef s g l).Valid r ↔ s.Valid r := by
  induction l generalizing s with
  | nil => exact Iff.rfl
  | cons e rest ih =>
    cases h0 : (s.read g).find? e.1 with
    | none =>
      have h2 : fillRef s g (e :: rest) = fillRef (s.store g e.1 e.2) g rest := by
        simp [fillRef, List.foldl_cons, h0]
      rw [h2, ih, Store.valid_store]
    | some w =>
      have h2 : fillRef s g (e :: rest) = fillRef s g rest := by
        simp [fillRef, List.foldl_cons, h0]
      rw [h2, ih]

theorem fill_nil_iff (s : Store (List Value)) (d : MapRef) :
    Fill s .nil d = none ↔ (s.contents d).keys ≠ [] := by
  unfold Fill GoMap.keys
  cases h : (s.contents d).entries with
  | nil => simp [fillLoop]
  | cons e rest =>
    simp [fillLoop, Store.contents, Store.assignAt, GoMap.find?, GoMap.empty, lookupEntry]

theorem fill_nil_of_empty (s : Store (List Value)) (d : MapRef)
    (h : (s.contents d).keys = []) : Fill s .nil d = some s := by
  have he : (s.contents d).entries = [] := by
    simpa [GoMap.keys] using h
  unfold Fill
  rw [he]
  rfl

theorem read_fill_self (s : Store (List Value)) (g : Ref) (l : List (ParamName × List Value))
    (hg : s.Valid g) :
    (l.foldl
        (fun st kv =>
          match (st.read g).find? kv.1 with
          | none => st.store g kv.1 kv.2
          | some _ => st)
        s).read g = (s.read g).fillAll l := by
  induction l generalizing s with
  | nil => rfl
  | cons e rest ih =>
    cases h0 : (s.read g).find? e.1 with
    | none =>
      have ih' := ih (s.store g e.1 e.2) ((Store.valid_store s g g e.1 e.2).2 hg)
      simp only [GoMap.fillAll, List.foldl_cons, h0] at ih' ⊢
      rw [ih', Store.read_store_self s g e.1 e.2 hg]
    | some w =>
      have ih' := ih s hg
      simp only [GoMap.fillAll, List.foldl_cons, h0] at ih' ⊢
      exact ih'

theorem read_fill_ne (s : Store (List Value)) (g r : Ref) (l : List (ParamName × List Value))
    (hne : r ≠ g) :
    (l.foldl
        (fun st kv =>
          match (st.read g).find? kv.1 with
          | none => st.store g kv.1 kv.2
          | some _ => st)
        s).read r = s.read r := by
  induction l generalizing s with
  | nil => rfl
  | cons e rest ih =>
    cases h0 : (s.read g).find? e.1 with
    | none =>
      have ih' := ih (s.store g e.1 e.2)
      simp only [List.foldl_cons, h0] at ih' ⊢
      rw [ih', Store.read_store_ne s g r e.1 e.2 hne]
    | some w =>
      have ih' := ih s
      simp only [List.foldl_cons, h0] at ih' ⊢
      exact ih'

end ParamsGrid

/-! ## Facts about the conversions to float32 -/

theorem roundShift_ge (m s : Nat) : m / 2 ^ s ≤ roundShift m s := by
  unfold roundShift
  simp only
  split
  · exact le_refl _
  · split
    · exact Nat.le_succ _
    · split
      · exact le_refl _
      · exact Nat.le_succ _

theorem roundShift_le (m s : Nat) : roundShift m s ≤ m / 2 ^ s + 1 := by
  unfold roundShift
  simp only
  split
  · exact Nat.le_succ _
  · split
    · exact le_refl _
    · split
      · exact Nat.le_succ _
      · exact le_refl _

theorem roundShift_near (m s : Nat) :
    |(roundShift m s : ℚ) * (2 : ℚ) ^ s - (m : ℚ)| ≤ (2 : ℚ) ^ s / 2 := by
  have hdm : (m : ℚ) = ((m / 2 ^ s : ℕ) : ℚ) * (2 : ℚ) ^ s + ((m % 2 ^ s : ℕ) : ℚ) := by
    have h := Nat.div_add_mod m (2 ^ s)
    have h' : ((2 ^ s * (m / 2 ^ s) + m % 2 ^ s : ℕ) : ℚ) = (m : ℚ) := by rw [h]
    push_cast at h'
    linarith
  have hpos : (0 : ℚ) < (2 : ℚ) ^ s := by positivity
  have hr0 : (0 : ℚ) ≤ ((m % 2 ^ s : ℕ) : ℚ) := Nat.cast_nonneg _
  rw [abs_le]
  unfold roundShift
  simp only
  split
  · rename_i h
    have h' : (2 : ℚ) * ((m % 2 ^ s : ℕ) : ℚ) < (2 : ℚ) ^ s := by exact_mod_cast h
    constructor <;> linarith
  · rename_i h1
    have h1' : (2 : ℚ) ^ s ≤ (2 : ℚ) * ((m % 2 ^ s : ℕ) : ℚ) := by
      exact_mod_cast Nat.le_of_not_lt h1
    have hlt : ((m % 2 ^ s : ℕ) : ℚ) < (2 : ℚ) ^ s := by
      exact_mod_cast Nat.mod_lt m (by positivity : 0 < 2 ^ s)
    split
    · push_cast
      constructor <;> linarith
    · rename_i h2
      have h2' : (2 : ℚ) * ((m % 2 ^ s : ℕ) : ℚ) ≤ (2 : ℚ) ^ s := by
        exact_mod_cast Nat.le_of_not_lt h2
      split
      · constructor <;> linarith
      · push_cast
        constructor <;> linarith

theorem two_zpow_split (a b : Int) (h : b ≤ a) :
    (2 : ℚ) ^ a = (2 : ℚ) ^ (a - b).toNat * (2 : ℚ) ^ b := by
  rw [← zpow_natCast, Int.toNat_of_nonneg (by omega), ← zpow_add₀ (by norm_num : (2 : ℚ) ≠ 0)]
  congr 1
  omega

theorem leadingBitAux_eq (fuel m : Nat) (h : m ≤ fuel) : leadingBitAux fuel m = Nat.log2 m := by
  induction fuel generalizing m with
  | zero =>
    have : m = 0 := by omega
    subst this
    rw [Nat.log2]
    simp [leadingBitAux]
  | succ n ih =>
    rw [Nat.log2]
    by_cases h2 : m < 2
    · simp [leadingBitAux, h2, Nat.not_le.2 h2]
    · have h3 : 2 ≤ m := by omega
      simp only [leadingBitAux, if_neg h2, ge_iff_le, h3, if_true]
      rw [ih (m / 2) (by omega)]

theorem leadingBit_eq (m : Nat) : leadingBit m = Nat.log2 m := leadingBitAux_eq m m (le_refl m)

theorem roundExp_def (m : Nat) (e : Int) :
    roundExp m e = max (-149) ((Nat.log2 m : Int) + e - 23) := by
  unfold roundExp
  rw [leadingBit_eq]

theorem roundExp_ge (m : Nat) (e : Int) : -149 ≤ roundExp m e := le_max_left _ _

theorem roundSig_near (m : Nat) (e : Int) :
    |(roundSig m e : ℚ) * (2 : ℚ) ^ roundExp m e - (m : ℚ) * (2 : ℚ) ^ e| ≤
      (2 : ℚ) ^ roundExp m e / 2 := by
  have hpos : (0 : ℚ) < (2 : ℚ) ^ roundExp m e := by positivity
  unfold roundSig
  split
  · rename_i h
    rw [two_zpow_split e (roundExp m e) h]
    push_cast
    have : (m : ℚ) * (2 : ℚ) ^ (e - roundExp m e).toNat * (2 : ℚ) ^ roundExp m e -
        (m : ℚ) * ((2 : ℚ) ^ (e - roundExp m e).toNat * (2 : ℚ) ^ roundExp m e) = 0 := by ring
    rw [this, abs_zero]
    linarith
  · rename_i h
    have h' : e ≤ roundExp m e := by omega
    have hs := two_zpow_split (roundExp m e) e h'
    have hpe : (0 : ℚ) < (2 : ℚ) ^ e := by positivity
    have hn := roundShift_near m (roundExp m e - e).toNat
    rw [hs]
    have : (roundShift m (roundExp m e - e).toNat : ℚ) *
          ((2 : ℚ) ^ (roundExp m e - e).toNat * (2 : ℚ) ^ e) - (m : ℚ) * (2 : ℚ) ^ e =
        ((roundShift m (roundExp m e - e).toNat : ℚ) * (2 : ℚ) ^ (roundExp m e - e).toNat -
          (m : ℚ)) * (2 : ℚ) ^ e := by ring
    rw [this, abs_mul, abs_of_pos hpe]
    calc _ ≤ (2 : ℚ) ^ (roundExp m e - e).toNat / 2 * (2 : ℚ) ^ e :=
          mul_le_mul_of_nonneg_right hn hpe.le
      _ = _ := by ring

theorem roundSig_le (m : Nat) (e : Int) : roundSig m e ≤ 2 ^ 24 := by
  have hlt : m < 2 ^ (Nat.log2 m + 1) := Nat.lt_log2_self
  have hge : (Nat.log2 m : Int) + e - 23 ≤ roundExp m e := by
    rw [roundExp_def]
    exact le_max_right _ _
  unfold roundSig
  split
  · rename_i h
    have hk : Nat.log2 m + 1 + (e - roundExp m e).toNat ≤ 24 := by omega
    calc m * 2 ^ (e - roundExp m e).toNat
        ≤ 2 ^ (Nat.log2 m + 1) * 2 ^ (e - roundExp m e).toNat :=
          Nat.mul_le_mul_right _ hlt.le
      _ = 2 ^ (Nat.log2 m + 1 + (e - roundExp m e).toNat) := (pow_add _ _ _).symm
      _ ≤ 2 ^ 24 := Nat.pow_le_pow_right (by norm_num) hk
  · rename_i h
    have hk : Nat.log2 m + 1 ≤ 24 + (roundExp m e - e).toNat := by omega
    have hm' : m < 2 ^ 24 * 2 ^ (roundExp m e - e).toNat := by
      calc m < 2 ^ (Nat.log2 m + 1) := hlt
        _ ≤ 2 ^ (24 + (roundExp m e - e).toNat) := Nat.pow_le_pow_right (by norm_num) hk
        _ = _ := pow_add _ _ _
    have hd : m / 2 ^ (roundExp m e - e).toNat < 2 ^ 24 :=
      (Nat.div_lt_iff_lt_mul (by positivity)).2 hm'
    have := roundShift_le m (roundExp m e - e).toNat
    omega

theorem roundSig_ge (m : Nat) (e : Int) (hm : m ≠ 0) (ht : -149 < roundExp m e) :
    2 ^ 23 ≤ roundSig m e := by
  have hle : 2 ^ Nat.log2 m ≤ m := Nat.log2_self_le hm
  have heq : roundExp m e = (Nat.log2 m : Int) + e - 23 := by
    rw [roundExp_def] at ht ⊢
    omega
  unfold roundSig
  split
  · rename_i h
    have hk : Nat.log2 m + (e - roundExp m e).toNat = 23 := by omega
    calc 2 ^ 23 = 2 ^ (Nat.log2 m + (e - roundExp m e).toNat) := by rw [hk]
      _ = 2 ^ Nat.log2 m * 2 ^ (e - roundExp m e).toNat := pow_add _ _ _
      _ ≤ m * 2 ^ (e - roundExp m e).toNat := Nat.mul_le_mul_right _ hle
  · rename_i h
    have hk : 23 + (roundExp m e - e).toNat = Nat.log2 m := by omega
    have hm' : 2 ^ 23 * 2 ^ (roundExp m e - e).toNat ≤ m := by
      calc 2 ^ 23 * 2 ^ (roundExp m e - e).toNat = 2 ^ (23 + (roundExp m e - e).toNat) :=
            (pow_add _ _ _).symm
        _ = 2 ^ Nat.log2 m := by rw [hk]
        _ ≤ m := hle
    have hd : 2 ^ 23 ≤ m / 2 ^ (roundExp m e - e).toNat :=
      (Nat.le_div_iff_mul_le (by positivity)).2 hm'
    exact le_trans hd (roundShift_ge m _)

theorem le_of_roundExp (m : Nat) (e : Int) (hm : m ≠ 0) (ht : -149 < roundExp m e) :
    (2 : ℚ) ^ (roundExp m e + 23) ≤ (m : ℚ) * (2 : ℚ) ^ e := by
  have hle : 2 ^ Nat.log2 m ≤ m := Nat.log2_self_le hm
  have heq : roundExp m e + 23 = (Nat.log2 m : Int) + e := by
    rw [roundExp_def] at ht ⊢
    omega
  have hpe : (0 : ℚ) < (2 : ℚ) ^ e := by positivity
  rw [heq, zpow_add₀ (by norm_num : (2 : ℚ) ≠ 0), zpow_natCast]
  exact mul_le_mul_of_nonneg_right (by exact_mod_cast hle) hpe.le

theorem float32MagValue_form (n : Nat) :
    ∃ (m' : ℕ) (e' : ℤ), m' < 2 ^ 24 ∧ -149 ≤ e' ∧ float32MagValue n = (m' : ℚ) * (2 : ℚ) ^ e' := by
  unfold float32MagValue
  split
  · exact ⟨n % 2 ^ 23, -149, by omega, le_refl _, rfl⟩
  · rename_i h
    refine ⟨2 ^ 23 + n % 2 ^ 23, ((n / 2 ^ 23 % 2 ^ 8 : ℕ) : ℤ) - 150, by omega, ?_, rfl⟩
    have : 1 ≤ n / 2 ^ 23 % 2 ^ 8 := Nat.one_le_iff_ne_zero.2 h
    omega

theorem float32MagValue_encode (T sig : ℕ) (hs : sig ≤ 2 ^ 24) (hT : 0 < T → 2 ^ 23 ≤ sig)
    (hB : T * 2 ^ 23 + sig < float32Inf) :
    float32MagValue (T * 2 ^ 23 + sig) = (sig : ℚ) * (2 : ℚ) ^ ((T : ℤ) - 149) := by
  unfold float32Inf at hB
  unfold float32MagValue
  norm_num only at hs hT hB ⊢
  by_cases h1 : sig < 8388608
  · have hT0 : T = 0 := by
      by_contra hne
      have := hT (Nat.pos_of_ne_zero hne)
      omega
    subst hT0
    have e1 : (0 * 8388608 + sig) / 8388608 % 256 = 0 := by omega
    have e2 : (0 * 8388608 + sig) % 8388608 = sig := by omega
    rw [if_pos e1, e2]
    norm_num
  · by_cases h2 : sig < 16777216
    · have e1 : (T * 8388608 + sig) / 8388608 % 256 = T + 1 := by omega
      have e2 : (T * 8388608 + sig) % 8388608 = sig - 8388608 := by omega
      rw [if_neg (by omega), e1, e2]
      have e3 : 8388608 + (sig - 8388608) = sig := by omega
      have e4 : (((T + 1 : ℕ) : ℤ) - 150) = (T : ℤ) - 149 := by push_cast; ring
      rw [e3, e4]
    · have hsig : sig = 16777216 := by omega
      subst hsig
      have e1 : (T * 8388608 + 16777216) / 8388608 % 256 = T + 2 := by omega
      have e2 : (T * 8388608 + 16777216) % 8388608 = 0 := by omega
      rw [if_neg (by omega), e1, e2]
      have e4 : (((T + 2 : ℕ) : ℤ) - 150) = ((T : ℤ) - 149) + 1 := by push_cast; ring
      rw [e4, zpow_add_one₀ (by norm_num : (2 : ℚ) ≠ 0)]
      push_cast
      ring

theorem grid_nearest (q : ℚ) (t : ℤ) (sig : ℕ)
    (hnear : |(sig : ℚ) * (2 : ℚ) ^ t - q| ≤ (2 : ℚ) ^ t / 2) (j : ℤ) :
    |(sig : ℚ) * (2 : ℚ) ^ t - q| ≤ |(j : ℚ) * (2 : ℚ) ^ t - q| := by
  have hpos : (0 : ℚ) < (2 : ℚ) ^ t := by positivity
  by_cases hj : j = (sig : ℤ)
  · subst hj
    simp
  · have h1 : (1 : ℤ) ≤ |j - (sig : ℤ)| := Int.one_le_abs (sub_ne_zero.2 hj)
    have h1' : (1 : ℚ) ≤ |(j : ℚ) - (sig : ℚ)| := by exact_mod_cast h1
    have h2 : (2 : ℚ) ^ t ≤ |(j : ℚ) * (2 : ℚ) ^ t - (sig : ℚ) * (2 : ℚ) ^ t| := by
      rw [← sub_mul, abs_mul, abs_of_pos hpos]
      calc (2 : ℚ) ^ t = 1 * (2 : ℚ) ^ t := (one_mul _).symm
        _ ≤ _ := mul_le_mul_of_nonneg_right h1' hpos.le
    have h3 := abs_sub_le ((j : ℚ) * (2 : ℚ) ^ t) q ((sig : ℚ) * (2 : ℚ) ^ t)
    rw [abs_sub_comm q] at h3
    linarith

theorem nearest_of_round (q : ℚ) (t : ℤ) (sig : ℕ)
    (hnear : |(sig : ℚ) * (2 : ℚ) ^ t - q| ≤ (2 : ℚ) ^ t / 2)
    (hbig : -149 < t → (2 : ℚ) ^ (t + 23) ≤ q)
    (m' : ℕ) (e' : ℤ) (hm' : m' < 2 ^ 24) (he' : -149 ≤ e') (σ : ℤ) (hσ : σ = 1 ∨ σ = -1) :
    |(sig : ℚ) * (2 : ℚ) ^ t - q| ≤ |(σ : ℚ) * ((m' : ℚ) * (2 : ℚ) ^ e') - q| := by
  by_cases hte : t ≤ e'
  · have h := grid_nearest q t sig hnear (σ * ((m' : ℤ) * 2 ^ (e' - t).toNat))
    rw [two_zpow_split e' t hte]
    push_cast at h
    have e1 : (σ : ℚ) * ((m' : ℚ) * ((2 : ℚ) ^ (e' - t).toNat * (2 : ℚ) ^ t)) =
        (σ : ℚ) * ((m' : ℚ) * (2 : ℚ) ^ (e' - t).toNat) * (2 : ℚ) ^ t := by ring
    rw [e1]
    exact h
  · have ht : -149 < t := by omega
    have hq := hbig ht
    have hg : |(sig : ℚ) * (2 : ℚ) ^ t - q| ≤ |(2 : ℚ) ^ 23 * (2 : ℚ) ^ t - q| := by
      have h := grid_nearest q t sig hnear (2 ^ 23)
      push_cast at h
      exact h
    have hpt : (0 : ℚ) < (2 : ℚ) ^ t := by positivity
    have hpe : (0 : ℚ) < (2 : ℚ) ^ e' := by positivity
    have hsplit : (2 : ℚ) ^ (t + 23) = (2 : ℚ) ^ 23 * (2 : ℚ) ^ t := by
      rw [zpow_add₀ (by norm_num : (2 : ℚ) ≠ 0)]
      norm_num [mul_comm]
    have hee : (2 : ℚ) ^ e' * 2 ≤ (2 : ℚ) ^ t := by
      have h1 : (2 : ℚ) ^ (e' + 1) ≤ (2 : ℚ) ^ t :=
        zpow_le_zpow_right₀ (by norm_num) (by omega)
      rwa [zpow_add_one₀ (by norm_num : (2 : ℚ) ≠ 0)] at h1
    have hy0 : (0 : ℚ) ≤ (m' : ℚ) * (2 : ℚ) ^ e' := by positivity
    have hm1 : (m' : ℚ) ≤ 2 ^ 24 - 1 := by
      have : m' + 1 ≤ 2 ^ 24 := hm'
      have h2 : ((m' + 1 : ℕ) : ℚ) ≤ ((2 ^ 24 : ℕ) : ℚ) := Nat.cast_le.2 this
      push_cast at h2
      linarith
    have hy : (m' : ℚ) * (2 : ℚ) ^ e' < (2 : ℚ) ^ 23 * (2 : ℚ) ^ t := by
      have h3 : (m' : ℚ) * (2 : ℚ) ^ e' ≤ (2 ^ 24 - 1) * (2 : ℚ) ^ e' :=
        mul_le_mul_of_nonneg_right hm1 hpe.le
      nlinarith
    have hσy : (σ : ℚ) * ((m' : ℚ) * (2 : ℚ) ^ e') ≤ (m' : ℚ) * (2 : ℚ) ^ e' := by
      rcases hσ with h | h <;> subst h <;> push_cast <;> linarith
    rw [hsplit] at hq
    have hg2 : |(2 : ℚ) ^ 23 * (2 : ℚ) ^ t - q| = q - (2 : ℚ) ^ 23 * (2 : ℚ) ^ t := by
      rw [abs_sub_comm, abs_of_nonneg (by linarith)]
    have hrhs : q - (m' : ℚ) * (2 : ℚ) ^ e' ≤ |(σ : ℚ) * ((m' : ℚ) * (2 : ℚ) ^ e') - q| := by
      rw [abs_sub_comm]
      calc q - (m' : ℚ) * (2 : ℚ) ^ e' ≤ q - (σ : ℚ) * ((m' : ℚ) * (2 : ℚ) ^ e') := by linarith
        _ ≤ _ := le_abs_self _
    rw [hg2] at hg
    linarith

theorem float32Magnitude_le (m : Nat) (e : Int) : float32Magnitude m e ≤ float32Inf := by
  unfold float32Magnitude
  split
  · exact Nat.zero_le _
  · exact min_le_left _ _

theorem float32Magnitude_value (m : Nat) (e : Int) (hm : m ≠ 0)
    (h : float32Magnitude m e < float32Inf) :
    float32MagValue (float32Magnitude m e) = (roundSig m e : ℚ) * (2 : ℚ) ^ roundExp m e := by
  unfold float32Magnitude at h ⊢
  rw [if_neg hm] at h ⊢
  have hB : (roundExp m e + 149).toNat * 2 ^ 23 + roundSig m e < float32Inf := by
    rcases min_lt_iff.1 h with h1 | h1
    · exact absurd h1 (lt_irrefl _)
    · exact h1
  rw [min_eq_right hB.le]
  have hge := roundExp_ge m e
  rw [float32MagValue_encode _ _ (roundSig_le m e)
    (fun hT => roundSig_ge m e hm (by omega)) hB, Int.toNat_of_nonneg (by omega)]
  congr 2
  ring

theorem float32MagValue_zero : float32MagValue 0 = 0 := by
  unfold float32MagValue
  norm_num

theorem float32Magnitude_nearest (m : Nat) (e : Int) (h : float32Magnitude m e < float32Inf)
    (n : Nat) (σ : ℤ) (hσ : σ = 1 ∨ σ = -1) :
    |float32MagValue (float32Magnitude m e) - (m : ℚ) * (2 : ℚ) ^ e| ≤
      |(σ : ℚ) * float32MagValue n - (m : ℚ) * (2 : ℚ) ^ e| := by
  by_cases hm : m = 0
  · subst hm
    have h0 : float32Magnitude 0 e = 0 := by simp [float32Magnitude]
    rw [h0, float32MagValue_zero]
    simp
  · obtain ⟨m', e', hm', he', hn⟩ := float32MagValue_form n
    rw [float32Magnitude_value m e hm h, hn]
    exact nearest_of_round _ _ _ (roundSig_near m e) (le_of_roundExp m e hm) m' e' hm' he' σ hσ

theorem float32Magnitude_overflow (m : Nat) (e : Int) (h : float32Magnitude m e = float32Inf) :
    (2 : ℚ) ^ 128 - (2 : ℚ) ^ 103 ≤ (m : ℚ) * (2 : ℚ) ^ e := by
  have hm : m ≠ 0 := by
    rintro rfl
    simp [float32Magnitude, float32Inf] at h
  unfold float32Magnitude at h
  rw [if_neg hm] at h
  have hB : float32Inf ≤ (roundExp m e + 149).toNat * 2 ^ 23 + roundSig m e := by
    by_contra hlt
    rw [min_eq_right (Nat.le_of_lt (Nat.lt_of_not_le hlt))] at h
    exact hlt h.ge
  have hs := roundSig_le m e
  have hge := roundExp_ge m e
  unfold float32Inf at hB
  norm_num only at hB hs
  have hT : 253 ≤ (roundExp m e + 149).toNat := by omega
  have ht : 104 ≤ roundExp m e := by omega
  by_cases h104 : roundExp m e = 104
  · have hsig : roundSig m e = 16777216 := by
      rw [h104] at hB
      norm_num at hB
      omega
    have hnear := roundSig_near m e
    rw [h104, hsig, abs_le] at hnear
    norm_num at hnear ⊢
    linarith [hnear.1]
  · have hbig := le_of_roundExp m e hm (by omega)
    have hmono : (2 : ℚ) ^ (128 : ℤ) ≤ (2 : ℚ) ^ (roundExp m e + 23) :=
      zpow_le_zpow_right₀ (by norm_num) (by omega)
    norm_num at hmono ⊢
    linarith

theorem float32MagValue_sign (s mag : Nat) :
    float32MagValue (s * 2 ^ 31 + mag) = float32MagValue mag := by
  unfold float32MagValue
  norm_num only
  have e1 : (s * 2147483648 + mag) / 8388608 % 256 = mag / 8388608 % 256 := by omega
  have e2 : (s * 2147483648 + mag) % 8388608 = mag % 8388608 := by omega
  rw [e1, e2]

theorem narrowMagnitude_finite (f : GoFloat64) (hf : f.IsFinite) :
    ∃ (M : ℕ) (e : ℤ), narrowMagnitude f.val = float32Magnitude M e ∧
      float64MagValue f.val = (M : ℚ) * (2 : ℚ) ^ e := by
  unfold GoFloat64.IsFinite at hf
  unfold narrowMagnitude float64MagValue
  simp only
  rw [if_neg hf]
  split
  · exact ⟨_, _, rfl, rfl⟩
  · exact ⟨_, _, rfl, rfl⟩

theorem float64ToFloat32_nearest (f : GoFloat64) (hf : f.IsFinite) :
    ((float64ToFloat32 f).IsFinite → ∀ y : GoFloat32, y.IsFinite →
        |(float64ToFloat32 f).toRat - f.toRat| ≤ |y.toRat - f.toRat|) ∧
      (¬ (float64ToFloat32 f).IsFinite → (2 : ℚ) ^ 128 - (2 : ℚ) ^ 103 ≤ |f.toRat|) := by
  obtain ⟨M, e, hmag, hval⟩ := narrowMagnitude_finite f hf
  have hlt := narrowMagnitude_lt f.val
  have hle := float32Magnitude_le M e
  have hs : f.val / 2 ^ 63 < 2 := by
    have := f.property
    omega
  have hsign : (float64ToFloat32 f).val / 2 ^ 31 = f.val / 2 ^ 63 := by
    show (f.val / 2 ^ 63 * 2 ^ 31 + narrowMagnitude f.val) / 2 ^ 31 = _
    omega
  have hmv : float32MagValue (float64ToFloat32 f).val =
      float32MagValue (float32Magnitude M e) := by
    show float32MagValue (f.val / 2 ^ 63 * 2 ^ 31 + narrowMagnitude f.val) = _
    rw [float32MagValue_sign, hmag]
  have hfin : (float64ToFloat32 f).IsFinite ↔ float32Magnitude M e < float32Inf := by
    unfold GoFloat32.IsFinite
    show (f.val / 2 ^ 63 * 2 ^ 31 + narrowMagnitude f.val) / 2 ^ 23 % 2 ^ 8 ≠ 255 ↔ _
    rw [hmag] at hlt ⊢
    unfold float32Inf at hle ⊢
    omega
  have hq0 : (0 : ℚ) ≤ (M : ℚ) * (2 : ℚ) ^ e := by positivity
  constructor
  · intro hr y _
    have hr' := hfin.1 hr
    unfold GoFloat32.toRat GoFloat64.toRat
    rw [hsign, hmv, hval]
    by_cases h1 : f.val / 2 ^ 63 = 0 <;> by_cases h2 : y.val / 2 ^ 31 = 0
    · rw [if_pos h1, if_pos h2, one_mul, one_mul]
      simpa using float32Magnitude_nearest M e hr' y.val 1 (Or.inl rfl)
    · rw [if_pos h1, if_neg h2, one_mul, one_mul]
      simpa using float32Magnitude_nearest M e hr' y.val (-1) (Or.inr rfl)
    · rw [if_neg h1, if_pos h2]
      have := float32Magnitude_nearest M e hr' y.val (-1) (Or.inr rfl)
      rw [show (-1 : ℚ) * float32MagValue (float32Magnitude M e) - -1 * ((M : ℚ) * (2 : ℚ) ^ e) =
          -(float32MagValue (float32Magnitude M e) - (M : ℚ) * (2 : ℚ) ^ e) by ring, abs_neg,
        show (1 : ℚ) * float32MagValue y.val - -1 * ((M : ℚ) * (2 : ℚ) ^ e) =
          -(((-1 : ℤ) : ℚ) * float32MagValue y.val - (M : ℚ) * (2 : ℚ) ^ e) by push_cast; ring,
        abs_neg]
      exact this
    · rw [if_neg h1, if_neg h2]
      have := float32Magnitude_nearest M e hr' y.val 1 (Or.inl rfl)
      rw [show (-1 : ℚ) * float32MagValue (float32Magnitude M e) - -1 * ((M : ℚ) * (2 : ℚ) ^ e) =
          -(float32MagValue (float32Magnitude M e) - (M : ℚ) * (2 : ℚ) ^ e) by ring, abs_neg,
        show (-1 : ℚ) * float32MagValue y.val - -1 * ((M : ℚ) * (2 : ℚ) ^ e) =
          -(((1 : ℤ) : ℚ) * float32MagValue y.val - (M : ℚ) * (2 : ℚ) ^ e) by push_cast; ring,
        abs_neg]
      exact this
  · intro hr
    have hr' : float32Magnitude M e = float32Inf :=
      le_antisymm hle (Nat.le_of_not_lt (fun h => hr (hfin.2 h)))
    have := float32Magnitude_overflow M e hr'
    unfold GoFloat64.toRat
    rw [hval]
    by_cases h1 : f.val / 2 ^ 63 = 0
    · rw [if_pos h1, one_mul, abs_of_nonneg hq0]
      exact this
    · rw [if_neg h1, neg_one_mul, abs_neg, abs_of_nonneg hq0]
      exact this

theorem float64ToFloat32_not_finite (f : GoFloat64) (hf : ¬ f.IsFinite) :
    ¬ (float64ToFloat32 f).IsFinite := by
  unfold GoFloat64.IsFinite at hf
  unfold GoFloat32.IsFinite
  have hE : f.val / 2 ^ 52 % 2 ^ 11 = 2047 := not_not.1 hf
  have hmag : narrowMagnitude f.val = float32Inf ∨
      narrowMagnitude f.val = 0x7FC00000 + f.val % 2 ^ 52 / 2 ^ 29 % 2 ^ 22 := by
    unfold narrowMagnitude
    simp only
    rw [if_pos hE]
    split
    · exact Or.inl rfl
    · exact Or.inr rfl
  have hx : f.val % 2 ^ 52 / 2 ^ 29 % 2 ^ 22 < 2 ^ 22 := Nat.mod_lt _ (by norm_num)
  show ¬ (f.val / 2 ^ 63 * 2 ^ 31 + narrowMagnitude f.val) / 2 ^ 23 % 2 ^ 8 ≠ 255
  rw [not_not]
  rcases hmag with h | h <;> rw [h]
  · unfold float32Inf
    omega
  · omega

theorem float64ToFloat32_rounded (f : GoFloat64) (hf : f.IsFinite) :
    RoundedToNearest f.toRat (float64ToFloat32 f) :=
  float64ToFloat32_nearest f hf

theorem intToFloat32_rounded (i : SInt intSize) :
    RoundedToNearest (i.val : ℚ) (intToFloat32 i) := by
  have hlt := float32Magnitude_lt i.val.natAbs 0
  have hle := float32Magnitude_le i.val.natAbs 0
  have hmv : float32MagValue (intToFloat32 i).val =
      float32MagValue (float32Magnitude i.val.natAbs 0) := by
    show float32MagValue ((if i.val < 0 then 2 ^ 31 else 0) + float32Magnitude i.val.natAbs 0) = _
    split
    · have := float32MagValue_sign 1 (float32Magnitude i.val.natAbs 0)
      rwa [one_mul] at this
    · rw [Nat.zero_add]
  have hfin : (intToFloat32 i).IsFinite ↔ float32Magnitude i.val.natAbs 0 < float32Inf := by
    unfold GoFloat32.IsFinite
    show ((if i.val < 0 then 2 ^ 31 else 0) + float32Magnitude i.val.natAbs 0) / 2 ^ 23 % 2 ^ 8 ≠
      255 ↔ _
    unfold float32Inf at hle ⊢
    split <;> omega
  have hq : (i.val.natAbs : ℚ) * (2 : ℚ) ^ (0 : ℤ) = (i.val.natAbs : ℚ) := by simp
  constructor
  · intro hr y _
    have hr' := hfin.1 hr
    unfold GoFloat32.toRat
    rw [hmv]
    by_cases h1 : i.val < 0
    · have hsign : (intToFloat32 i).val / 2 ^ 31 ≠ 0 := by
        show ((if i.val < 0 then 2 ^ 31 else 0) + float32Magnitude i.val.natAbs 0) / 2 ^ 31 ≠ 0
        rw [if_pos h1]
        omega
      have hz : (i.val : ℚ) = -(i.val.natAbs : ℚ) := by
        have : i.val = -(i.val.natAbs : ℤ) := by omega
        exact_mod_cast this
      rw [if_neg hsign, hz]
      by_cases h2 : y.val / 2 ^ 31 = 0
      · have := float32Magnitude_nearest i.val.natAbs 0 hr' y.val (-1) (Or.inr rfl)
        rw [hq] at this
        rw [if_pos h2,
          show (-1 : ℚ) * float32MagValue (float32Magnitude i.val.natAbs 0) -
              -(i.val.natAbs : ℚ) =
            -(float32MagValue (float32Magnitude i.val.natAbs 0) - (i.val.natAbs : ℚ)) by ring,
          abs_neg,
          show (1 : ℚ) * float32MagValue y.val - -(i.val.natAbs : ℚ) =
            -(((-1 : ℤ) : ℚ) * float32MagValue y.val - (i.val.natAbs : ℚ)) by push_cast; ring,
          abs_neg]
        exact this
      · have := float32Magnitude_nearest i.val.natAbs 0 hr' y.val 1 (Or.inl rfl)
        rw [hq] at this
        rw [if_neg h2,
          show (-1 : ℚ) * float32MagValue (float32Magnitude i.val.natAbs 0) -
              -(i.val.natAbs : ℚ) =
            -(float32MagValue (float32Magnitude i.val.natAbs 0) - (i.val.natAbs : ℚ)) by ring,
          abs_neg,
          show (-1 : ℚ) * float32MagValue y.val - -(i.val.natAbs : ℚ) =
            -(((1 : ℤ) : ℚ) * float32MagValue y.val - (i.val.natAbs : ℚ)) by push_cast; ring,
          abs_neg]
        exact this
    · have hsign : (intToFloat32 i).val / 2 ^ 31 = 0 := by
        show ((if i.val < 0 then 2 ^ 31 else 0) + float32Magnitude i.val.natAbs 0) / 2 ^ 31 = 0
        rw [if_neg h1]
        omega
      have hz : (i.val : ℚ) = (i.val.natAbs : ℚ) := by
        rw [← Int.cast_natCast, Int.natAbs_of_nonneg (by omega)]
      rw [if_pos hsign, hz, one_mul]
      by_cases h2 : y.val / 2 ^ 31 = 0
      · have := float32Magnitude_nearest i.val.natAbs 0 hr' y.val 1 (Or.inl rfl)
        rw [hq] at this
        rw [if_pos h2]
        simpa using this
      · have := float32Magnitude_nearest i.val.natAbs 0 hr' y.val (-1) (Or.inr rfl)
        rw [hq] at this
        rw [if_neg h2]
        simpa using this
  · intro hr
    exfalso
    have hr' : float32Magnitude i.val.natAbs 0 = float32Inf :=
      le_antisymm hle (Nat.le_of_not_lt (fun h => hr (hfin.2 h)))
    have hov := float32Magnitude_overflow i.val.natAbs 0 hr'
    rw [hq] at hov
    have hi := i.property
    unfold InRange intSize at hi
    have hb : i.val.natAbs ≤ 2 ^ 63 := by
      have h1 := hi.1
      have h2 := hi.2
      norm_num at h1 h2
      omega
    have hb' : (i.val.natAbs : ℚ) ≤ 2 ^ 63 := by exact_mod_cast hb
    norm_num at hov
    linarith

/-! ## Example inputs -/

/-- The `float64` nearest to `0.1`. -/
def float64Tenth : GoFloat64 := ⟨0x3FB999999999999A, by norm_num⟩

/-- The parameters `{Lr: 0.1, NEpochs: 20, UseFeature: true}`. -/
def exampleParams : Params :=
  ⟨[(Lr, .float64 float64Tenth), (NEpochs, .int ⟨20, by decide⟩), (UseFeature, .bool true)],
    by decide⟩

/-! ## Typed getters -/

/-- C1: for a name that is not a key of the parameters, each typed getter returns exactly the
default it was given; none of them panics and none records a log entry. -/
theorem getters_absent_key_return_default (p : Params) (k : ParamName) (hk : k ∉ p.keys)
    (db : Bool) (di : SInt intSize) (dl : SInt 64) (df : GoFloat32) (ds : String) :
    p.GetBool k db = (db, []) ∧ p.GetInt k di = (di, []) ∧ p.GetInt64 k dl = (dl, []) ∧
      p.GetFloat32 k df = (df, []) ∧ p.GetString k ds = some ds := by
  have h : p.find? k = none := (GoMap.find?_eq_none_iff p k).2 hk
  simp [Params.GetBool, Params.GetInt, Params.GetInt64, Params.GetFloat32, Params.GetString, h]

/-- Witness of C1: `Reg` is not a key of `{Lr, NEpochs, UseFeature}` and the five getters
return their defaults there. -/
theorem getters_absent_key_return_default_witness :
    Reg ∉ exampleParams.keys ∧
      (exampleParams.GetBool Reg true = (true, []) ∧
        exampleParams.GetInt Reg ⟨7, by decide⟩ = (⟨7, by decide⟩, []) ∧
        exampleParams.GetInt64 Reg ⟨-3, by decide⟩ = (⟨-3, by decide⟩, []) ∧
        exampleParams.GetFloat32 Reg ⟨0x3F800000, by norm_num⟩ = (⟨0x3F800000, by norm_num⟩, []) ∧
        exampleParams.GetString Reg "Dot" = some "Dot") :=
  ⟨by decide, getters_absent_key_return_default exampleParams Reg (by decide) true
    ⟨7, by decide⟩ ⟨-3, by decide⟩ ⟨0x3F800000, by norm_num⟩ "Dot"⟩

/-- C2: when the name is bound to a value `v`, `GetBool` returns the stored boolean if `v` is
a `bool` and its default for every other dynamic type; `GetInt` returns the stored integer if
`v` is an `int` and its default for every other dynamic type, `int64` and the floating point
types included. -/
theorem getBool_getInt_present (p : Params) (k : ParamName) (v : Value)
    (hv : p.find? k = some v) (db : Bool) (di : SInt intSize) :
    (∀ b, v = .bool b → (p.GetBool k db).1 = b) ∧
      (v.kind ≠ .bool → (p.GetBool k db).1 = db) ∧
      (∀ i, v = .int i → (p.GetInt k di).1 = i) ∧
      (v.kind ≠ .int → (p.GetInt k di).1 = di) := by
  refine ⟨?_, ?_, ?_, ?_⟩
  · rintro b rfl
    simp [Params.GetBool, hv]
  · intro hk
    cases v <;> simp_all [Params.GetBool, Value.kind]
  · rintro i rfl
    simp [Params.GetInt, hv]
  · intro hk
    cases v <;> simp_all [Params.GetInt, Value.kind]

/-- Witness of C2: in `{Lr: 0.1, NEpochs: 20, UseFeature: true}` the name `UseFeature` is bound
to a boolean, which `GetBool` returns and `GetInt` replaces by its default. -/
theorem getBool_getInt_present_witness :
    exampleParams.find? UseFeature = some (.bool true) ∧
      (exampleParams.GetBool UseFeature false).1 = true ∧
      (exampleParams.GetInt UseFeature ⟨7, by decide⟩).1 = ⟨7, by decide⟩ :=
  have h := getBool_getInt_present exampleParams UseFeature (.bool true) (by decide) false
    ⟨7, by decide⟩
  ⟨by decide, h.1 true rfl, h.2.2.2 (by decide)⟩

/-- The parameters `{NEpochs: int32(5)}`. -/
def int32Params : Params := ⟨[(NEpochs, .int32 ⟨5, by decide⟩)], by decide⟩

/-- C3, as stated, fails: a stored 32-bit integer (`int32`) is not widened by `GetInt64`.  The
type switch has no case for it, so the default is returned and a mismatch is logged. -/
theorem getInt64_int32_returns_default :
    int32Params.find? NEpochs = some (.int32 ⟨5, by decide⟩) ∧
      int32Params.GetInt64 NEpochs ⟨0, by decide⟩ = (⟨0, by decide⟩, [typeMismatch NEpochs]) ∧
      (int32Params.GetInt64 NEpochs ⟨0, by decide⟩).1.val ≠ 5 := by
  decide

/-- C3, amended: when the name is bound to a value `v`, `GetInt64` returns `v` itself if `v`
is an `int64`; if `v` is an `int` (the integer type `GetInt` reads, 64 bits wide) it returns
`v` converted to `int64`, which has exactly the same numeric value, and never the default; for
every other dynamic type, `int32` included, it returns its default. -/
theorem getInt64_present (p : Params) (k : ParamName) (v : Value)
    (hv : p.find? k = some v) (d : SInt 64) :
    (∀ i, v = .int64 i → (p.GetInt64 k d).1 = i) ∧
      (∀ i, v = .int i → (p.GetInt64 k d).1 = intToInt64 i ∧ (intToInt64 i).val = i.val) ∧
      (v.kind ≠ .int64 → v.kind ≠ .int → (p.GetInt64 k d).1 = d) := by
  refine ⟨?_, ?_, ?_⟩
  · rintro i rfl
    simp [Params.GetInt64, hv]
  · rintro i rfl
    refine ⟨by simp [Params.GetInt64, hv], ?_⟩
    exact wrapSigned_eq_self 64 (by norm_num) i.val i.property
  · intro h1 h2
    cases v <;> simp_all [Params.GetInt64, Value.kind]

/-- Witness of the amended C3: in `{Lr: 0.1, NEpochs: 20, UseFeature: true}` the name `NEpochs`
is bound to the `int` 20, and `GetInt64` returns 20, not its default 0. -/
theorem getInt64_present_witness :
    exampleParams.find? NEpochs = some (.int ⟨20, by decide⟩) ∧
      (exampleParams.GetInt64 NEpochs ⟨0, by decide⟩).1.val = 20 :=
  have h := getInt64_present exampleParams NEpochs (.int ⟨20, by decide⟩) (by decide)
    ⟨0, by decide⟩
  ⟨by decide, by rw [(h.2.1 _ rfl).1]; exact (h.2.1 _ rfl).2⟩

/-- The parameters `{Similarity: "Cosine", NFactors: int32(3)}`. -/
def exampleStringParams : Params :=
  ⟨[(Similarity, .string SimilarityCosine), (NFactors, .int32 ⟨3, by decide⟩)], by decide⟩

/-- C4, as stated, fails: a stored 32-bit integer (`int32`) is not converted by `GetFloat32`.
The type switch has no case for it, so the default is returned and a mismatch is logged. -/
theorem getFloat32_int32_returns_default :
    exampleStringParams.find? NFactors = some (.int32 ⟨3, by decide⟩) ∧
      exampleStringParams.GetFloat32 NFactors ⟨0, by decide⟩ =
        (⟨0, by decide⟩, [typeMismatch NFactors]) := by
  decide

/-- C4, amended: `GetFloat32` is total; when the name is bound to a value `v` it returns `v`
itself if `v` is a `float32`; if `v` is a `float64` it returns `v` converted to `float32`,
which for a finite `v` is `v` rounded to nearest (no finite `float32` is nearer, and the result
is an infinity only from the magnitude `2 ^ 128 - 2 ^ 103` on) and for an infinity or a NaN
is not finite either; if `v` is an `int` (the integer
type `GetInt` reads, 64 bits wide) it returns `v` converted to `float32`, rounded to nearest in
the same way; for every other dynamic type, `int32` included, it returns its default. -/
theorem getFloat32_present (p : Params) (k : ParamName) (v : Value)
    (hv : p.find? k = some v) (d : GoFloat32) :
    (∀ f, v = .float32 f → (p.GetFloat32 k d).1 = f) ∧
      (∀ f, v = .float64 f → (p.GetFloat32 k d).1 = float64ToFloat32 f ∧
        (f.IsFinite → RoundedToNearest f.toRat (float64ToFloat32 f)) ∧
        (¬ f.IsFinite → ¬ (float64ToFloat32 f).IsFinite)) ∧
      (∀ i, v = .int i → (p.GetFloat32 k d).1 = intToFloat32 i ∧
        RoundedToNearest (i.val : ℚ) (intToFloat32 i)) ∧
      (v.kind ≠ .float32 → v.kind ≠ .float64 → v.kind ≠ .int → (p.GetFloat32 k d).1 = d) := by
  refine ⟨?_, ?_, ?_, ?_⟩
  · rintro f rfl
    simp [Params.GetFloat32, hv]
  · rintro f rfl
    exact ⟨by simp [Params.GetFloat32, hv], float64ToFloat32_rounded f,
      float64ToFloat32_not_finite f⟩
  · rintro i rfl
    exact ⟨by simp [Params.GetFloat32, hv], intToFloat32_rounded i⟩
  · intro h1 h2 h3
    cases v <;> simp_all [Params.GetFloat32, Value.kind]

set_option maxRecDepth 100000 in
/-- Witness of the amended C4: in `{Lr: 0.1, NEpochs: 20, UseFeature: true}` the name `Lr` is
bound to the `float64` nearest to 0.1, and `GetFloat32` returns the `float32` nearest to it,
of bits `0x3DCCCCCD`; `NEpochs` is bound to the `int` 20, returned as the `float32` 20. -/
theorem getFloat32_present_witness :
    exampleParams.find? Lr = some (.float64 float64Tenth) ∧
      (exampleParams.GetFloat32 Lr ⟨0, by decide⟩).1 = ⟨0x3DCCCCCD, by decide⟩ ∧
      exampleParams.find? NEpochs = some (.int ⟨20, by decide⟩) ∧
      (exampleParams.GetFloat32 NEpochs ⟨0, by decide⟩).1 = ⟨0x41A00000, by decide⟩ :=
  have h1 := getFloat32_present exampleParams Lr (.float64 float64Tenth) (by decide)
    ⟨0, by decide⟩
  have h2 := getFloat32_present exampleParams NEpochs (.int ⟨20, by decide⟩) (by decide)
    ⟨0, by decide⟩
  ⟨by decide, (h1.2.1 _ rfl).1.trans (by decide), by decide,
    (h2.2.2.1 _ rfl).1.trans (by decide)⟩

/-- C5: `GetString` panics exactly when the name is a key bound to a value that is not a
string; a stored string is returned as it is; and for a key bound to a value of another type
the default is never returned. -/
theorem getString_panics_iff (p : Params) (k : ParamName) (d : String) :
    (p.GetString k d = none ↔ ∃ v, p.find? k = some v ∧ v.kind ≠ .string) ∧
      (∀ s, p.find? k = some (.string s) → p.GetString k d = some s) ∧
      (∀ v, p.find? k = some v → v.kind ≠ .string → p.GetString k d ≠ some d) := by
  refine ⟨?_, ?_, ?_⟩
  · cases h : p.find? k with
    | none => simp [Params.GetString, h]
    | some v => cases v <;> simp [Params.GetString, h, Value.kind]
  · intro s hs
    simp [Params.GetString, hs]
  · intro v hv hk
    cases v <;> simp_all [Params.GetString, Value.kind]

/-- Witness of C5: in `{Similarity: "Cosine", NFactors: int32(3)}`, `GetString` returns the
stored text for `Similarity` and panics for `NFactors`. -/
theorem getString_panics_iff_witness :
    exampleStringParams.find? Similarity = some (.string "Cosine") ∧
      exampleStringParams.GetString Similarity "Dot" = some "Cosine" ∧
      exampleStringParams.find? NFactors = some (.int32 ⟨3, by decide⟩) ∧
      exampleStringParams.GetString NFactors "Dot" = none :=
  have h1 := getString_panics_iff exampleStringParams Similarity "Dot"
  have h2 := getString_panics_iff exampleStringParams NFactors "Dot"
  ⟨by decide, h1.2.1 "Cosine" (by decide), by decide,
    h2.1.2 ⟨.int32 ⟨3, by decide⟩, by decide, by decide⟩⟩

/-! ## Overwrite and Copy -/

/-- A store with `{A: 1, B: 2}` at reference 0 and `{B: 3, C: 4}` at reference 1. -/
def exampleStore : Store Value :=
  ⟨[⟨[("A", .int ⟨1, by decide⟩), ("B", .int ⟨2, by decide⟩)], by decide⟩,
    ⟨[("B", .int ⟨3, by decide⟩), ("C", .int ⟨4, by decide⟩)], by decide⟩]⟩

/-- C6: `Overwrite` is a right-biased merge.  In the returned map a key of `params` is bound
to the value it has in `params`; a name that is not a key of `params` is bound as in the
receiver (to the receiver's value, or not at all); so the keys of the result are the keys of
the receiver together with the keys of `params`. -/
theorem overwrite_right_biased (s : Store Value) (p q : Ref) (hp : s.Valid p) (hq : s.Valid q)
    (k : ParamName) :
    (∀ v, (s.read q).find? k = some v →
        ((Params.Overwrite s p q).1.read (Params.Overwrite s p q).2).find? k = some v) ∧
      ((s.read q).find? k = none →
        ((Params.Overwrite s p q).1.read (Params.Overwrite s p q).2).find? k =
          (s.read p).find? k) ∧
      (k ∈ ((Params.Overwrite s p q).1.read (Params.Overwrite s p q).2).keys ↔
        k ∈ (s.read p).keys ∨ k ∈ (s.read q).keys) := by
  have hfind : ((Params.Overwrite s p q).1.read (Params.Overwrite s p q).2).find? k =
      (lookupEntry k (s.read q).entries).orElse (fun _ => lookupEntry k (s.read p).entries) := by
    rw [Params.read_overwrite s p q hp hq, GoMap.find?_assignAll _ _ (s.read q).nodup,
      GoMap.find?_assignAll_empty _ (s.read p).nodup]
  have hq' : (s.read q).find? k = lookupEntry k (s.read q).entries := rfl
  have hp' : (s.read p).find? k = lookupEntry k (s.read p).entries := rfl
  refine ⟨?_, ?_, ?_⟩
  · intro v hv
    rw [hfind, ← hq', hv]
    rfl
  · intro hn
    rw [hfind, ← hq', hn, hp']
    rfl
  · rw [GoMap.mem_keys_iff, GoMap.mem_keys_iff, GoMap.mem_keys_iff, hfind, ← hq', ← hp']
    cases h1 : (s.read q).find? k <;> cases h2 : (s.read p).find? k <;> simp

/-- Witness of C6: `{A: 1, B: 2}.Overwrite({B: 3, C: 4})` binds `B` to 3 and `A` to 1, and its
entries are those of `{A: 1, B: 3, C: 4}`. -/
theorem overwrite_right_biased_witness :
    exampleStore.Valid 0 ∧ exampleStore.Valid 1 ∧
      ((Params.Overwrite exampleStore 0 1).1.read (Params.Overwrite exampleStore 0 1).2).find? "B" =
        some (.int ⟨3, by decide⟩) ∧
      ((Params.Overwrite exampleStore 0 1).1.read (Params.Overwrite exampleStore 0 1).2).find? "A" =
        some (.int ⟨1, by decide⟩) ∧
      ((Params.Overwrite exampleStore 0 1).1.read (Params.Overwrite exampleStore 0 1).2).entries =
        [("A", .int ⟨1, by decide⟩), ("B", .int ⟨3, by decide⟩), ("C", .int ⟨4, by decide⟩)] :=
  ⟨by decide, by decide,
    (overwrite_right_biased exampleStore 0 1 (by decide) (by decide) "B").1 _ (by decide),
    ((overwrite_right_biased exampleStore 0 1 (by decide) (by decide) "A").2.1 (by decide)).trans
      (by decide),
    by decide⟩

/-- C7: `Overwrite` mutates neither input.  After the call the receiver and `params` hold the
bindings they held before it, whether they are two maps or one and the same map; the map
returned is a new one. -/
theorem overwrite_preserves_inputs (s : Store Value) (p q : Ref) (hp : s.Valid p)
    (hq : s.Valid q) :
    (Params.Overwrite s p q).1.read p = s.read p ∧
      (Params.Overwrite s p q).1.read q = s.read q ∧
      (Params.Overwrite s p q).2 ≠ p ∧ (Params.Overwrite s p q).2 ≠ q :=
  ⟨Params.overwrite_frame s p q p hp, Params.overwrite_frame s p q q hq,
    fun h => s.make_ne p hp h.symm, fun h => s.make_ne q hq h.symm⟩

/-- Witness of C7: the inputs `{A: 1, B: 2}` and `{B: 3, C: 4}` are unchanged after
`Overwrite`, and `{A: 1, B: 2}` is unchanged after it is merged with itself. -/
theorem overwrite_preserves_inputs_witness :
    exampleStore.Valid 0 ∧ exampleStore.Valid 1 ∧
      (Params.Overwrite exampleStore 0 1).1.read 0 = exampleStore.read 0 ∧
      (Params.Overwrite exampleStore 0 1).1.read 1 = exampleStore.read 1 ∧
      (Params.Overwrite exampleStore 0 0).1.read 0 = exampleStore.read 0 :=
  ⟨by decide, by decide,
    (overwrite_preserves_inputs exampleStore 0 1 (by decide) (by decide)).1,
    (overwrite_preserves_inputs exampleStore 0 1 (by decide) (by decide)).2.1,
    (overwrite_preserves_inputs exampleStore 0 0 (by decide) (by decide)).1⟩

/-- C8: the map returned by `Copy` binds every name exactly as the receiver does (same keys,
same value at every key) and is a map of its own: the receiver is unchanged by the call, and
an assignment to any name in the copy, new or already bound, leaves the receiver as it was. -/
theorem copy_same_bindings_independent (s : Store Value) (p : Ref) (hp : s.Valid p) :
    (∀ k, ((Params.Copy s p).1.read (Params.Copy s p).2).find? k = (s.read p).find? k) ∧
      (∀ k, k ∈ ((Params.Copy s p).1.read (Params.Copy s p).2).keys ↔ k ∈ (s.read p).keys) ∧
      (Params.Copy s p).1.read p = s.read p ∧
      (∀ k v, (((Params.Copy s p).1.store (Params.Copy s p).2 k v).read p = s.read p)) := by
  have hfind : ∀ k, ((Params.Copy s p).1.read (Params.Copy s p).2).find? k =
      (s.read p).find? k := fun k => by
    rw [Params.read_copy s p hp, GoMap.find?_assignAll_empty _ (s.read p).nodup]
    rfl
  refine ⟨hfind, ?_, Params.copy_frame s p p hp, ?_⟩
  · intro k
    rw [GoMap.mem_keys_iff, GoMap.mem_keys_iff, hfind]
  · intro k v
    have hne : p ≠ (Params.Copy s p).2 := s.make_ne p hp
    rw [Store.read_store_ne _ _ _ _ _ hne]
    exact Params.copy_frame s p p hp

/-- Witness of C8: the copy of `{A: 1, B: 2}` binds `B` to 2, and adding `C` to the copy
leaves `C` unbound in the original. -/
theorem copy_same_bindings_independent_witness :
    exampleStore.Valid 0 ∧
      ((Params.Copy exampleStore 0).1.read (Params.Copy exampleStore 0).2).find? "B" =
        some (.int ⟨2, by decide⟩) ∧
      (((Params.Copy exampleStore 0).1.store (Params.Copy exampleStore 0).2 "C"
        (.bool true)).read 0).find? "C" = none :=
  have h := copy_same_bindings_independent exampleStore 0 (by decide)
  ⟨by decide, (h.1 "B").trans (by decide), by rw [h.2.2.2 "C" (.bool true)]; decide⟩

/-! ## ParamsGrid -/

/-- The grid `{A: [1, 2], B: [3, 4, 5]}`. -/
def exampleGrid : ParamsGrid :=
  ⟨[("A", [.int ⟨1, by decide⟩, .int ⟨2, by decide⟩]),
    ("B", [.int ⟨3, by decide⟩, .int ⟨4, by decide⟩, .int ⟨5, by decide⟩])], by decide⟩

/-- Sixty-three parameter names. -/
def wideNames : List ParamName :=
  ["D01", "D02", "D03", "D04", "D05", "D06", "D07", "D08", "D09", "D10", "D11", "D12", "D13",
    "D14", "D15", "D16", "D17", "D18", "D19", "D20", "D21", "D22", "D23", "D24", "D25", "D26",
    "D27", "D28", "D29", "D30", "D31", "D32", "D33", "D34", "D35", "D36", "D37", "D38", "D39",
    "D40", "D41", "D42", "D43", "D44", "D45", "D46", "D47", "D48", "D49", "D50", "D51", "D52",
    "D53", "D54", "D55", "D56", "D57", "D58", "D59", "D60", "D61", "D62", "D63"]

/-- A grid of sixty-three dimensions with the two candidates `false` and `true` each. -/
def wideGrid : ParamsGrid :=
  ⟨wideNames.map (fun k => (k, [.bool false, .bool true])), by decide⟩

set_option maxRecDepth 100000 in
/-- C9, as stated, fails: for sixty-three dimensions of two candidates each the product of the
lengths is `2 ^ 63`, and `NumCombinations` returns `-2 ^ 63`. -/
theorem numCombinations_wideGrid :
    wideGrid.exactProduct = 2 ^ 63 ∧ wideGrid.NumCombinations = -2 ^ 63 ∧
      wideGrid.NumCombinations ≠ wideGrid.exactProduct := by
  decide

theorem exactProduct_nonneg (grid : ParamsGrid) : 0 ≤ grid.exactProduct := by
  unfold ParamsGrid.exactProduct
  apply List.prod_nonneg
  intro a ha
  simp only [List.mem_map] at ha
  obtain ⟨kv, _, rfl⟩ := ha
  exact Int.ofNat_nonneg _

/-- C9, amended: whenever the product of the lengths of the candidate sequences, taken over the
entries of the grid, is below `2 ^ 63`, `NumCombinations` returns exactly that product; and it
returns 1 for a grid without keys. -/
theorem numCombinations_eq_product (grid : ParamsGrid) :
    (grid.exactProduct < 2 ^ 63 → grid.NumCombinations = grid.exactProduct) ∧
      (grid.keys = [] → grid.NumCombinations = 1) := by
  constructor
  · intro h
    rw [ParamsGrid.numCombinations_eq_wrap]
    refine wrapSigned_eq_self intSize (by decide) _ ⟨?_, by simpa [intSize] using h⟩
    have h0 := exactProduct_nonneg grid
    have : (0 : Int) ≤ (2 : Int) ^ (intSize - 1) := by positivity
    omega
  · intro h
    have he : grid.entries = [] := by
      simpa [GoMap.keys] using h
    simp [ParamsGrid.NumCombinations, he]

/-- Witness of the amended C9: `{A: [1, 2], B: [3, 4, 5]}` has product 6, below `2 ^ 63`, and
`NumCombinations` returns 6; the empty grid gives 1. -/
theorem numCombinations_eq_product_witness :
    exampleGrid.exactProduct < 2 ^ 63 ∧ exampleGrid.NumCombinations = 6 ∧
      ParamsGrid.NumCombinations GoMap.empty = 1 :=
  ⟨by decide,
    ((numCombinations_eq_product exampleGrid).1 (by decide)).trans (by decide),
    (numCombinations_eq_product GoMap.empty).2 rfl⟩

/-- A store with the grid `{A: [1, 2]}` at reference 0 and the grid
`{A: [9, 9, 9], B: [5, 6]}` at reference 1. -/
def exampleGridStore : Store (List Value) :=
  ⟨[⟨[("A", [.int ⟨1, by decide⟩, .int ⟨2, by decide⟩])], by decide⟩,
    ⟨[("A", [.int ⟨9, by decide⟩, .int ⟨9, by decide⟩, .int ⟨9, by decide⟩]),
      ("B", [.int ⟨5, by decide⟩, .int ⟨6, by decide⟩])], by decide⟩]⟩

/-- C10, as stated, fails: for a receiver that is the nil map and the defaults
`{A: [9, 9, 9], B: [5, 6]}` the call panics, and the receiver does not hold the sequence that
`_default` has at `B`. -/
theorem fill_nil_receiver_panics :
    ParamsGrid.Fill exampleGridStore .nil (.ref 1) = none ∧
      (exampleGridStore.contents (.ref 1)).find? "B" =
        some [.int ⟨5, by decide⟩, .int ⟨6, by decide⟩] ∧
      (exampleGridStore.contents .nil).find? "B" = none :=
  ⟨rfl, by decide, by decide⟩

/-- C10, amended: for a receiver that is an allocated map `Fill` is a left-biased fill.  The
call returns, and after it a name that was a key of the receiver is bound in it to the
sequence it had, whatever `_default` holds for it; a name that was not a key of the receiver
is bound in it as in `_default` (to the sequence of `_default`, or not at all); and `_default`
holds what it held before the call.  For a receiver that is the nil map the call panics
exactly when `_default` has a key. -/
theorem fill_left_biased (s : Store (List Value)) (g : Ref) (d : MapRef) (hg : s.Valid g) :
    (∃ s', ParamsGrid.Fill s (.ref g) d = some s' ∧
        (∀ k vs, (s.read g).find? k = some vs → (s'.read g).find? k = some vs) ∧
        (∀ k, (s.read g).find? k = none → (s'.read g).find? k = (s.contents d).find? k) ∧
        s'.contents d = s.contents d) ∧
      (ParamsGrid.Fill s .nil d = none ↔ (s.contents d).keys ≠ []) := by
  have hread : (ParamsGrid.fillRef s g (s.contents d).entries).read g =
      (s.read g).fillAll (s.contents d).entries :=
    ParamsGrid.read_fill_self s g (s.contents d).entries hg
  refine ⟨⟨_, ParamsGrid.fill_ref s g d hg, ?_, ?_, ?_⟩, ParamsGrid.fill_nil_iff s d⟩
  · intro k vs hvs
    rw [hread, GoMap.find?_fillAll, hvs]
    rfl
  · intro k hn
    rw [hread, GoMap.find?_fillAll, hn]
    rfl
  · cases d with
    | nil => rfl
    | ref r =>
      show (ParamsGrid.fillRef s g (s.read r).entries).read r = s.read r
      by_cases hdg : r = g
      · subst hdg
        have h := ParamsGrid.read_fill_self s r (s.read r).entries hg
        rw [GoMap.fillAll_self] at h
        exact h
      · exact ParamsGrid.read_fill_ne s g r (s.read r).entries hdg

/-- Witness of the amended C10: `{A: [1, 2]}.Fill({A: [9, 9, 9], B: [5, 6]})` returns and
leaves the receiver with `A` bound to `[1, 2]` and `B` bound to `[5, 6]`, that is with the
entries of `{A: [1, 2], B: [5, 6]}`, and leaves the defaults as they were. -/
theorem fill_left_biased_witness :
    exampleGridStore.Valid 0 ∧
      (∃ s', ParamsGrid.Fill exampleGridStore (.ref 0) (.ref 1) = some s' ∧
        (s'.read 0).find? "A" = some [.int ⟨1, by decide⟩, .int ⟨2, by decide⟩] ∧
        (s'.read 0).find? "B" = some [.int ⟨5, by decide⟩, .int ⟨6, by decide⟩] ∧
        s'.contents (.ref 1) = exampleGridStore.contents (.ref 1)) ∧
      (ParamsGrid.Fill exampleGridStore (.ref 0) (.ref 1)).map (fun st => (st.read 0).entries) =
        some [("A", [.int ⟨1, by decide⟩, .int ⟨2, by decide⟩]),
          ("B", [.int ⟨5, by decide⟩, .int ⟨6, by decide⟩])] := by
  obtain ⟨⟨s', hs, hkeep, hnew, hd⟩, _⟩ :=
    fill_left_biased exampleGridStore 0 (.ref 1) (by decide)
  exact ⟨by decide, ⟨s', hs, hkeep "A" _ (by decide), (hnew "B" (by decide)).trans (by decide),
    hd⟩, by decide⟩

/-! ## Serialization: ToString -/

theorem mem_insertByKey {V : Type} (kv e : ParamName × V) (l : List (ParamName × V)) :
    e ∈ insertByKey kv l ↔ e = kv ∨ e ∈ l := by
  induction l with
  | nil => simp [insertByKey]
  | cons a rest ih =>
    unfold insertByKey
    split
    · simp
    · simp only [List.mem_cons, ih]
      tauto

theorem mem_sortByKey {V : Type} (e : ParamName × V) (l : List (ParamName × V)) :
    e ∈ sortByKey l ↔ e ∈ l := by
  induction l with
  | nil => simp [sortByKey]
  | cons a rest ih =>
    have h : sortByKey (a :: rest) = insertByKey a (sortByKey rest) := rfl
    rw [h, mem_insertByKey, ih, List.mem_cons]

theorem lookupEntry_eq_some_iff {V : Type} (k : ParamName) (v : V) (l : List (ParamName × V))
    (hl : (l.map Prod.fst).Nodup) : lookupEntry k l = some v ↔ (k, v) ∈ l := by
  induction l with
  | nil => simp [lookupEntry]
  | cons e rest ih =>
    obtain ⟨k0, v0⟩ := e
    simp only [List.map_cons, List.nodup_cons] at hl
    by_cases h : k0 = k
    · subst h
      have hn : ∀ w, (k0, w) ∉ rest := fun w hw => hl.1 (List.mem_map.2 ⟨(k0, w), hw, rfl⟩)
      simp only [lookupEntry, if_true, Option.some.injEq, List.mem_cons, Prod.mk.injEq, true_and]
      constructor
      · intro e; exact Or.inl e.symm
      · rintro (e | e)
        · exact e.symm
        · exact absurd e (hn v)
    · have h' : ¬ k = k0 := fun e => h e.symm
      simp only [lookupEntry, if_neg h, ih hl.2, List.mem_cons, Prod.mk.injEq, h', false_and,
        false_or]

theorem GoMap.find?_eq_some_iff {V : Type} (m : GoMap V) (k : ParamName) (v : V) :
    m.find? k = some v ↔ (k, v) ∈ m.entries :=
  lookupEntry_eq_some_iff k v m.entries m.nodup

theorem jsonMarshal_ok_iff (encode : Params → String) (p : Params) :
    jsonMarshal encode p = .ok (encode p) ↔ ∀ k v, p.find? k = some v → v.Representable := by
  unfold jsonMarshal
  cases h : (sortByKey p.entries).findSome? (fun kv => kv.2.jsonError) with
  | none =>
    simp only [true_iff]
    intro k v hv
    rw [List.findSome?_eq_none_iff] at h
    exact h (k, v) ((mem_sortByKey _ _).2 ((p.find?_eq_some_iff k v).1 hv))
  | some err =>
    simp only [false_iff, reduceCtorEq]
    intro hall
    obtain ⟨kv, hmem, herr⟩ := List.exists_of_findSome?_eq_some h
    have hv := hall kv.1 kv.2 ((p.find?_eq_some_iff kv.1 kv.2).2 ((mem_sortByKey _ _).1 hmem))
    unfold Value.Representable at hv
    rw [hv] at herr
    exact absurd herr (by simp)

theorem jsonMarshal_cases (encode : Params → String) (p : Params) :
    jsonMarshal encode p = .ok (encode p) ∨ ∃ err, jsonMarshal encode p = .error err := by
  unfold jsonMarshal
  cases (sortByKey p.entries).findSome? (fun kv => kv.2.jsonError) with
  | none => exact Or.inl rfl
  | some err => exact Or.inr ⟨err, rfl⟩

/-- A `float64` NaN. -/
def float64NaN : GoFloat64 := ⟨0x7FF8000000000001, by norm_num⟩

/-- The parameters `{Lr: NaN, NEpochs: 20}`. -/
def nanParams : Params :=
  ⟨[(Lr, .float64 float64NaN), (NEpochs, .int ⟨20, by decide⟩)], by decide⟩

/-- C13: `ToString` is all-or-nothing.  It ends the run in the fatal branch, returning no
string at all, exactly when some stored value has no JSON encoding; and it returns exactly
when every stored value has one, the string returned being then the whole output of
`json.Marshal`. -/
theorem toString_all_or_nothing (encode : Params → String) (p : Params) :
    ((∃ log, p.ToString encode = .exits log) ↔
        ∃ k v, p.find? k = some v ∧ ¬ v.Representable) ∧
      (p.ToString encode = .returns (encode p) ↔
        ∀ k v, p.find? k = some v → v.Representable) ∧
      (∀ b, p.ToString encode = .returns b → b = encode p) := by
  have hok := jsonMarshal_ok_iff encode p
  rcases jsonMarshal_cases encode p with h | ⟨err, h⟩
  · have hall := hok.1 h
    have hT : p.ToString encode = .returns (encode p) := by simp [Params.ToString, h]
    refine ⟨?_, ?_, ?_⟩
    · rw [hT]
      constructor
      · rintro ⟨log, hlog⟩
        exact absurd hlog (by simp)
      · rintro ⟨k, v, hv, hr⟩
        exact absurd (hall k v hv) hr
    · rw [hT]
      exact ⟨fun _ => hall, fun _ => rfl⟩
    · intro b hb
      rw [hT] at hb
      exact (Run.returns.inj hb).symm
  · have hT : p.ToString encode = .exits [failedToConvert err] := by simp [Params.ToString, h]
    have hnot : ¬ ∀ k v, p.find? k = some v → v.Representable := fun hall => by
      have := hok.2 hall
      rw [h] at this
      exact absurd this (by simp)
    refine ⟨?_, ?_, ?_⟩
    · rw [hT]
      constructor
      · intro _
        by_contra hne
        apply hnot
        intro k v hv
        by_contra hr
        exact hne ⟨k, v, hv, hr⟩
      · intro _
        exact ⟨_, rfl⟩
    · rw [hT]
      constructor
      · intro hc
        exact absurd hc (by simp)
      · intro hall
        exact absurd hall hnot
    · intro b hb
      rw [hT] at hb
      exact absurd hb (by simp)

/-- Witness of C13: for `{Lr: NaN, NEpochs: 20}` the run ends in the fatal branch with the
error of the NaN and nothing is returned for `NEpochs`; for the empty parameters, which
`json.Marshal` encodes as `{}`, the encoding is returned. -/
theorem toString_all_or_nothing_witness :
    nanParams.find? Lr = some (.float64 float64NaN) ∧ ¬ (Value.float64 float64NaN).Representable ∧
      nanParams.ToString (fun _ => "{}") =
        .exits [failedToConvert ⟨"NaN"⟩] ∧
      Params.ToString (fun _ => "{}") GoMap.empty = .returns "{}" :=
  ⟨by decide, by decide, by decide,
    (toString_all_or_nothing (fun _ => "{}") GoMap.empty).2.1.2
      (fun k v h => absurd h (by simp [GoMap.find?, GoMap.empty, lookupEntry]))⟩

/-- The parameters `{NEpochs: "20"}`. -/
def epochsAsString : Params := ⟨[(NEpochs, .string "20")], by decide⟩

/-- The parameters `{NEpochs: true}`. -/
def epochsAsBool : Params := ⟨[(NEpochs, .bool true)], by decide⟩

/-- C14: the entry that a getter records for a stored value of a type it does not accept
carries the name of the parameter, but its `actual_type` field is the name of the type of the
key: a stored string and a stored boolean leave `GetInt`, `GetInt64` and `GetFloat32` with the
same entry, whose `actual_type` is `ParamName`, and so does `GetBool` for a stored string. -/
theorem mismatch_entry_records_key_type :
    (epochsAsString.find? NEpochs).map Value.kind = some .string ∧
      (epochsAsBool.find? NEpochs).map Value.kind = some .bool ∧
      (epochsAsString.GetInt NEpochs ⟨0, by decide⟩).2 = [typeMismatch NEpochs] ∧
      (epochsAsBool.GetInt NEpochs ⟨0, by decide⟩).2 = [typeMismatch NEpochs] ∧
      (epochsAsString.GetInt64 NEpochs ⟨0, by decide⟩).2 = [typeMismatch NEpochs] ∧
      (epochsAsBool.GetInt64 NEpochs ⟨0, by decide⟩).2 = [typeMismatch NEpochs] ∧
      (epochsAsString.GetFloat32 NEpochs ⟨0, by decide⟩).2 = [typeMismatch NEpochs] ∧
      (epochsAsBool.GetFloat32 NEpochs ⟨0, by decide⟩).2 = [typeMismatch NEpochs] ∧
      (epochsAsString.GetBool NEpochs false).2 = [typeMismatch NEpochs] ∧
      (typeMismatch NEpochs).fields = [("param_name", "NEpochs"), ("actual_type", "ParamName")] := by
  decide

/-! ## Len and NumCombinations -/

namespace GoMap
variable {V : Type}

theorem len_eq_card (m : GoMap V) : m.len = m.keys.toFinset.card := by
  unfold GoMap.len GoMap.keys
  rw [List.toFinset_card_of_nodup m.nodup, List.length_map]

theorem len_assign (m : GoMap V) (k : ParamName) (v : V) :
    (m.assign k v).len = if k ∈ m.keys then m.len else m.len + 1 := by
  have h := congrArg List.length (keys_assignEntry k v m.entries)
  simp only [List.length_map] at h
  unfold GoMap.len GoMap.assign GoMap.keys
  rw [h]
  split <;> simp

theorem mem_keys_fillAll (m : GoMap V) (l : List (ParamName × V)) (k : ParamName) :
    k ∈ (m.fillAll l).keys ↔ k ∈ m.keys ∨ k ∈ l.map Prod.fst := by
  rw [mem_keys_iff, find?_fillAll, mem_keys_iff]
  have hl : k ∈ l.map Prod.fst ↔ ∃ v, lookupEntry k l = some v := by
    rw [← not_iff_not, ← lookupEntry_eq_none_iff]
    cases lookupEntry k l <;> simp
  rw [hl]
  cases h1 : m.find? k <;> cases h2 : lookupEntry k l <;> simp

end GoMap

/-- C11, as stated, fails: for a receiver that is the nil map and the defaults `{A: [1, 2]}`
the call `Fill` panics; the receiver still has `Len` 0, and the union of the two key sets has
one key. -/
theorem len_nil_receiver_after_fill :
    ParamsGrid.Fill exampleGridStore .nil (.ref 0) = none ∧
      ParamsGrid.Len (exampleGridStore.contents .nil) = 0 ∧
      ((exampleGridStore.contents .nil).keys.toFinset ∪
        (exampleGridStore.contents (.ref 0)).keys.toFinset).card = 1 :=
  ⟨rfl, by decide, by decide⟩

/-- C11, amended: `Len` is the number of distinct keys of the grid, whatever the candidates:
binding a new name, to an empty sequence or any other, adds one, and rebinding a key adds
nothing; after `Fill` on a receiver that is an allocated map, the `Len` of the receiver is the
size of the union of the keys that the receiver and `_default` had before the call. -/
theorem len_counts_keys (grid : ParamsGrid) (s : Store (List Value)) (g : Ref) (d : MapRef)
    (hg : s.Valid g) :
    grid.Len = (grid.keys.toFinset.card : Int) ∧
      (∀ k vs, k ∉ grid.keys → ParamsGrid.Len (grid.assign k vs) = grid.Len + 1) ∧
      (∀ k vs, k ∈ grid.keys → ParamsGrid.Len (grid.assign k vs) = grid.Len) ∧
      (∃ s', ParamsGrid.Fill s (.ref g) d = some s' ∧
        ParamsGrid.Len (s'.read g) =
          (((s.read g).keys.toFinset ∪ (s.contents d).keys.toFinset).card : Int)) := by
  refine ⟨?_, ?_, ?_, ⟨_, ParamsGrid.fill_ref s g d hg, ?_⟩⟩
  · unfold ParamsGrid.Len
    rw [GoMap.len_eq_card]
  · intro k vs hk
    unfold ParamsGrid.Len
    rw [GoMap.len_assign, if_neg hk]
    push_cast
    rfl
  · intro k vs hk
    unfold ParamsGrid.Len
    rw [GoMap.len_assign, if_pos hk]
  · have hread : (ParamsGrid.fillRef s g (s.contents d).entries).read g =
        (s.read g).fillAll (s.contents d).entries :=
      ParamsGrid.read_fill_self s g (s.contents d).entries hg
    unfold ParamsGrid.Len
    rw [hread, GoMap.len_eq_card]
    congr 2
    ext k
    simp only [List.mem_toFinset, Finset.mem_union, GoMap.mem_keys_fillAll]
    rfl

/-- Witness of the amended C11: `{A: [1, 2]}.Fill({A: [9, 9, 9], B: [5, 6]})` returns and the
receiver then has the two dimensions `A` and `B`. -/
theorem len_counts_keys_witness :
    exampleGridStore.Valid 0 ∧
      (∃ s', ParamsGrid.Fill exampleGridStore (.ref 0) (.ref 1) = some s' ∧
        ParamsGrid.Len (s'.read 0) = 2) ∧
      ParamsGrid.Len (exampleGrid.assign "C" []) = 3 := by
  have h := len_counts_keys exampleGrid exampleGridStore 0 (.ref 1) (by decide)
  obtain ⟨s', hs, hlen⟩ := h.2.2.2
  exact ⟨by decide, ⟨s', hs, hlen.trans (by decide)⟩, (h.2.1 "C" [] (by decide)).trans (by decide)⟩

/-- The grid `{A: [1, 2], B: []}`. -/
def emptyDimensionGrid : ParamsGrid :=
  ⟨[("A", [.int ⟨1, by decide⟩, .int ⟨2, by decide⟩]), ("B", [])], by decide⟩

/-- C16: a grid in which some key has an empty candidate sequence has `NumCombinations` 0,
whatever its other dimensions hold, while `Len` counts that key: it is one more than the
number of the other keys. -/
theorem numCombinations_zero_of_empty_dimension (grid : ParamsGrid) (k : ParamName)
    (hk : grid.find? k = some []) :
    grid.NumCombinations = 0 ∧ k ∈ grid.keys ∧
      grid.Len = ((grid.keys.toFinset.erase k).card : Int) + 1 := by
  have hmem : k ∈ grid.keys := (GoMap.mem_keys_iff grid k).2 ⟨[], hk⟩
  refine ⟨?_, hmem, ?_⟩
  · rw [ParamsGrid.numCombinations_eq_wrap]
    have h0 : grid.exactProduct = 0 := by
      unfold ParamsGrid.exactProduct
      apply List.prod_eq_zero
      rw [List.mem_map]
      exact ⟨(k, []), (grid.find?_eq_some_iff k []).1 hk, rfl⟩
    rw [h0]
    decide
  · unfold ParamsGrid.Len
    rw [GoMap.len_eq_card, Finset.card_erase_of_mem (List.mem_toFinset.2 hmem)]
    have : 1 ≤ grid.keys.toFinset.card :=
      Finset.card_pos.2 ⟨k, List.mem_toFinset.2 hmem⟩
    omega

/-- Witness of C16: `{A: [1, 2], B: []}` has `NumCombinations` 0 and `Len` 2. -/
theorem numCombinations_zero_of_empty_dimension_witness :
    emptyDimensionGrid.find? "B" = some [] ∧ emptyDimensionGrid.NumCombinations = 0 ∧
      emptyDimensionGrid.Len = 2 :=
  have h := numCombinations_zero_of_empty_dimension emptyDimensionGrid "B" (by decide)
  ⟨by decide, h.1, h.2.2.trans (by decide)⟩

theorem one_le_prod_lengths (l : List (ParamName × List Value)) (h : ∀ kv ∈ l, kv.2 ≠ []) :
    1 ≤ (l.map (fun kv => (kv.2.length : Int))).prod := by
  induction l with
  | nil => simp
  | cons e rest ih =>
    have he : 1 ≤ (e.2.length : Int) := by
      have : e.2 ≠ [] := h e (by simp)
      have := List.length_pos.2 this
      omega
    have hr := ih (fun kv hkv => h kv (List.mem_cons_of_mem _ hkv))
    simp only [List.map_cons, List.prod_cons]
    nlinarith

/-- A grid of sixty-four dimensions with the two candidates `false` and `true` each. -/
def wideGrid64 : ParamsGrid :=
  ⟨(wideNames ++ ["D64"]).map (fun k => (k, [.bool false, .bool true])), by decide⟩

set_option maxRecDepth 100000 in
/-- C17: `NumCombinations` is computed in 64-bit signed integers.  Its result is the product
of the lengths reduced modulo `2 ^ 64` into the signed range; it is the product itself, and at
least 1 when no sequence is empty, whenever the product is below `2 ^ 63`; and for the grid of
sixty-four dimensions of two candidates each, none of them empty, it is 0. -/
theorem numCombinations_machine_integer (grid : ParamsGrid) :
    grid.NumCombinations = wrapSigned 64 grid.exactProduct ∧
      InRange 64 grid.NumCombinations ∧
      grid.NumCombinations ≡ grid.exactProduct [ZMOD (2 : Int) ^ 64] ∧
      (grid.exactProduct < 2 ^ 63 →
        grid.NumCombinations = grid.exactProduct ∧
          ((∀ kv ∈ grid.entries, kv.2 ≠ []) → 1 ≤ grid.NumCombinations)) ∧
      ((∀ kv ∈ wideGrid64.entries, kv.2 ≠ []) ∧ wideGrid64.keys.length = 64 ∧
        wideGrid64.NumCombinations = 0) := by
  have hw : grid.NumCombinations = wrapSigned 64 grid.exactProduct :=
    ParamsGrid.numCombinations_eq_wrap grid
  refine ⟨hw, ?_, ?_, ?_, ?_, ?_, ?_⟩
  · rw [hw]
    exact wrapSigned_inRange 64 (by norm_num) _
  · rw [hw]
    exact wrapSigned_modEq 64 _
  · intro h
    have heq : grid.NumCombinations = grid.exactProduct := by
      rw [hw]
      refine wrapSigned_eq_self 64 (by norm_num) _ ⟨?_, by simpa using h⟩
      have h0 := exactProduct_nonneg grid
      have : (0 : Int) ≤ (2 : Int) ^ (64 - 1) := by positivity
      omega
    refine ⟨heq, fun hne => ?_⟩
    rw [heq]
    exact one_le_prod_lengths grid.entries hne
  · decide
  · decide
  · decide

/-- Witness of C17: `{A: [1, 2], B: [3, 4, 5]}` has product 6, below `2 ^ 63`; its two
sequences are not empty and `NumCombinations` returns 6. -/
theorem numCombinations_machine_integer_witness :
    exampleGrid.exactProduct < 2 ^ 63 ∧ (∀ kv ∈ exampleGrid.entries, kv.2 ≠ []) ∧
      exampleGrid.NumCombinations = 6 ∧ 1 ≤ exampleGrid.NumCombinations :=
  have h := (numCombinations_machine_integer exampleGrid).2.2.2.1 (by decide)
  ⟨by decide, by decide, h.1.trans (by decide), h.2 (by decide)⟩

/-! ## Order of enumeration, and repeated Fill -/

theorem lookupEntry_perm {V : Type} (l₁ l₂ : List (ParamName × V)) (h : l₁.Perm l₂)
    (hl : (l₁.map Prod.fst).Nodup) (k : ParamName) : lookupEntry k l₁ = lookupEntry k l₂ := by
  have hl₂ : (l₂.map Prod.fst).Nodup := (h.map Prod.fst).nodup_iff.1 hl
  apply Option.ext
  intro v
  rw [Option.mem_def, Option.mem_def, lookupEntry_eq_some_iff k v l₁ hl,
    lookupEntry_eq_some_iff k v l₂ hl₂]
  exact h.mem_iff

theorem GoMap.find?_perm {V : Type} (m₁ m₂ : GoMap V) (h : m₁.entries.Perm m₂.entries)
    (k : ParamName) : m₁.find? k = m₂.find? k :=
  lookupEntry_perm m₁.entries m₂.entries h m₁.nodup k

theorem Params.find?_overwrite (s : Store Value) (p q : Ref) (hp : s.Valid p) (hq : s.Valid q)
    (k : ParamName) :
    ((Params.Overwrite s p q).1.read (Params.Overwrite s p q).2).find? k =
      ((s.read q).find? k).orElse (fun _ => (s.read p).find? k) := by
  rw [Params.read_overwrite s p q hp hq, GoMap.find?_assignAll _ _ (s.read q).nodup,
    GoMap.find?_assignAll_empty _ (s.read p).nodup]
  rfl

theorem ParamsGrid.find?_fillRef (s : Store (List Value)) (g : Ref)
    (l : List (ParamName × List Value)) (hg : s.Valid g) (k : ParamName) :
    ((ParamsGrid.fillRef s g l).read g).find? k =
      ((s.read g).find? k).orElse (fun _ => lookupEntry k l) := by
  have hread : (ParamsGrid.fillRef s g l).read g = (s.read g).fillAll l :=
    ParamsGrid.read_fill_self s g l hg
  rw [hread, GoMap.find?_fillAll]

theorem ParamsGrid.contents_fillRef (s : Store (List Value)) (g : Ref) (d : MapRef)
    (hg : s.Valid g) :
    (ParamsGrid.fillRef s g (s.contents d).entries).contents d = s.contents d := by
  cases d with
  | nil => rfl
  | ref r =>
    show (ParamsGrid.fillRef s g (s.read r).entries).read r = s.read r
    by_cases hdg : r = g
    · subst hdg
      have h := ParamsGrid.read_fill_self s r (s.read r).entries hg
      rw [GoMap.fillAll_self] at h
      exact h
    · exact ParamsGrid.read_fill_ne s g r (s.read r).entries hdg

/-- A store with the entries of `{A: 1, B: 2}` and of `{B: 3, C: 4}` enumerated in the other
order: `{B: 2, A: 1}` at reference 0 and `{C: 4, B: 3}` at reference 1. -/
def exampleStoreReordered : Store Value :=
  ⟨[⟨[("B", .int ⟨2, by decide⟩), ("A", .int ⟨1, by decide⟩)], by decide⟩,
    ⟨[("C", .int ⟨4, by decide⟩), ("B", .int ⟨3, by decide⟩)], by decide⟩]⟩

/-- C15: the results do not depend on the order in which a `range` loop enumerates a map.
Two grids with the same entries in two orders have the same `NumCombinations`; `Overwrite` of
maps with the same entries in two orders returns maps with the same bindings; and `Fill` with
defaults that have the same entries in two orders returns for both and leaves receivers with
the same bindings when the receiver is an allocated map, and panics for both or for neither
when the receiver is the nil map. -/
theorem results_independent_of_enumeration :
    (∀ g₁ g₂ : ParamsGrid, g₁.entries.Perm g₂.entries →
        g₁.NumCombinations = g₂.NumCombinations) ∧
      (∀ (s₁ s₂ : Store Value) (p q : Ref), s₁.Valid p → s₁.Valid q → s₂.Valid p → s₂.Valid q →
        (s₁.read p).entries.Perm (s₂.read p).entries →
        (s₁.read q).entries.Perm (s₂.read q).entries →
        ∀ k, ((Params.Overwrite s₁ p q).1.read (Params.Overwrite s₁ p q).2).find? k =
          ((Params.Overwrite s₂ p q).1.read (Params.Overwrite s₂ p q).2).find? k) ∧
      (∀ (s₁ s₂ : Store (List Value)) (g : Ref) (d : MapRef), s₁.Valid g → s₂.Valid g →
        s₁.read g = s₂.read g → (s₁.contents d).entries.Perm (s₂.contents d).entries →
        ∃ t₁ t₂, ParamsGrid.Fill s₁ (.ref g) d = some t₁ ∧
          ParamsGrid.Fill s₂ (.ref g) d = some t₂ ∧
          ∀ k, (t₁.read g).find? k = (t₂.read g).find? k) ∧
      (∀ (s₁ s₂ : Store (List Value)) (d : MapRef),
        (s₁.contents d).entries.Perm (s₂.contents d).entries →
        (ParamsGrid.Fill s₁ .nil d = none ↔ ParamsGrid.Fill s₂ .nil d = none)) := by
  refine ⟨?_, ?_, ?_, ?_⟩
  · intro g₁ g₂ h
    rw [ParamsGrid.numCombinations_eq_wrap, ParamsGrid.numCombinations_eq_wrap]
    unfold ParamsGrid.exactProduct
    rw [(h.map _).prod_eq]
  · intro s₁ s₂ p q hp₁ hq₁ hp₂ hq₂ hp hq k
    rw [Params.find?_overwrite s₁ p q hp₁ hq₁, Params.find?_overwrite s₂ p q hp₂ hq₂,
      GoMap.find?_perm _ _ hp, GoMap.find?_perm _ _ hq]
  · intro s₁ s₂ g d hg₁ hg₂ hg hd
    refine ⟨_, _, ParamsGrid.fill_ref s₁ g d hg₁, ParamsGrid.fill_ref s₂ g d hg₂, fun k => ?_⟩
    rw [ParamsGrid.find?_fillRef s₁ g _ hg₁, ParamsGrid.find?_fillRef s₂ g _ hg₂, hg,
      lookupEntry_perm _ _ hd (s₁.contents d).nodup]
  · intro s₁ s₂ d hd
    have hlen : (s₁.contents d).keys.length = (s₂.contents d).keys.length :=
      (hd.map Prod.fst).length_eq
    rw [ParamsGrid.fill_nil_iff, ParamsGrid.fill_nil_iff, ← List.length_pos, ← List.length_pos,
      hlen]

/-- Witness of C15: `{A: 1, B: 2}.Overwrite({B: 3, C: 4})` binds `B` to 3 also when the two
maps are enumerated as `{B: 2, A: 1}` and `{C: 4, B: 3}`. -/
theorem results_independent_of_enumeration_witness :
    (exampleStore.read 0).entries.Perm (exampleStoreReordered.read 0).entries ∧
      (exampleStore.read 1).entries.Perm (exampleStoreReordered.read 1).entries ∧
      ((Params.Overwrite exampleStoreReordered 0 1).1.read
        (Params.Overwrite exampleStoreReordered 0 1).2).find? "B" = some (.int ⟨3, by decide⟩) :=
  have hp : (exampleStore.read 0).entries.Perm (exampleStoreReordered.read 0).entries :=
    List.Perm.swap _ _ _
  have hq : (exampleStore.read 1).entries.Perm (exampleStoreReordered.read 1).entries :=
    List.Perm.swap _ _ _
  ⟨hp, hq,
    (results_independent_of_enumeration.2.1 exampleStore exampleStoreReordered 0 1 (by decide)
      (by decide) (by decide) (by decide) hp hq "B").symm.trans (by decide)⟩

namespace ParamsGrid

theorem fill_of_bound (s : Store (List Value)) (g : Ref) (l : List (ParamName × List Value))
    (h : ∀ kv ∈ l, (s.read g).find? kv.1 ≠ none) :
    l.foldl
        (fun st kv =>
          match (st.read g).find? kv.1 with
          | none => st.store g kv.1 kv.2
          | some _ => st)
        s = s := by
  induction l with
  | nil => rfl
  | cons e rest ih =>
    have he := h e (by simp)
    have ih' := ih (fun kv hkv => h kv (List.mem_cons_of_mem _ hkv))
    cases h0 : (s.read g).find? e.1 with
    | none => exact absurd h0 he
    | some w =>
      simp only [List.foldl_cons, h0]
      exact ih'

theorem fillRef_eq_self (s : Store (List Value)) (g : Ref) (l : List (ParamName × List Value))
    (h : ∀ kv ∈ l, (s.read g).find? kv.1 ≠ none) : fillRef s g l = s :=
  fill_of_bound s g l h

end ParamsGrid

/-- C19: `Fill` is idempotent.  For a receiver that is an allocated map the call returns, and
a second call `Fill` with the same defaults returns too and leaves the store, and so the
receiver, exactly as the first call left it; filling a grid with itself changes nothing; and
filling with a grid without keys changes nothing, for the nil map as a receiver too. -/
theorem fill_idempotent (s : Store (List Value)) (g : Ref) (d : MapRef) (hg : s.Valid g) :
    (∃ s', ParamsGrid.Fill s (.ref g) d = some s' ∧ ParamsGrid.Fill s' (.ref g) d = some s') ∧
      ParamsGrid.Fill s (.ref g) (.ref g) = some s ∧
      ((s.contents d).keys = [] → ParamsGrid.Fill s (.ref g) d = some s) ∧
      ParamsGrid.Fill s .nil .nil = some s ∧
      ((s.contents d).keys = [] → ParamsGrid.Fill s .nil d = some s) := by
  refine ⟨⟨_, ParamsGrid.fill_ref s g d hg, ?_⟩, ?_, ?_, rfl, ParamsGrid.fill_nil_of_empty s d⟩
  · rw [ParamsGrid.fill_ref _ g d ((ParamsGrid.valid_fillRef s g g _).2 hg),
      ParamsGrid.contents_fillRef s g d hg]
    congr 1
    apply ParamsGrid.fillRef_eq_self
    intro kv hkv
    rw [ParamsGrid.find?_fillRef s g _ hg]
    have hl : lookupEntry kv.1 (s.contents d).entries ≠ none := fun h0 =>
      (lookupEntry_eq_none_iff kv.1 _).1 h0 (List.mem_map.2 ⟨kv, hkv, rfl⟩)
    cases h1 : (s.read g).find? kv.1 with
    | none =>
      cases h2 : lookupEntry kv.1 (s.contents d).entries with
      | none => exact absurd h2 hl
      | some w => simp
    | some w => simp
  · rw [ParamsGrid.fill_ref s g (.ref g) hg]
    congr 1
    apply ParamsGrid.fillRef_eq_self
    intro kv hkv h0
    exact (lookupEntry_eq_none_iff kv.1 _).1 h0 (List.mem_map.2 ⟨kv, hkv, rfl⟩)
  · intro he
    have hnil : (s.contents d).entries = [] := by
      simpa [GoMap.keys] using he
    rw [ParamsGrid.fill_ref s g d hg, hnil]
    rfl

/-- Witness of C19: `{A: [1, 2]}.Fill({A: [9, 9, 9], B: [5, 6]})` returns, a second call
returns the same store, and the receiver then has the entries of `{A: [1, 2], B: [5, 6]}`. -/
theorem fill_idempotent_witness :
    exampleGridStore.Valid 0 ∧
      (∃ s', ParamsGrid.Fill exampleGridStore (.ref 0) (.ref 1) = some s' ∧
        ParamsGrid.Fill s' (.ref 0) (.ref 1) = some s') ∧
      ((ParamsGrid.Fill exampleGridStore (.ref 0) (.ref 1)).bind
          (fun st => ParamsGrid.Fill st (.ref 0) (.ref 1))).map (fun st => (st.read 0).entries) =
        some [("A", [.int ⟨1, by decide⟩, .int ⟨2, by decide⟩]),
          ("B", [.int ⟨5, by decide⟩, .int ⟨6, by decide⟩])] :=
  ⟨by decide, (fill_idempotent exampleGridStore 0 (.ref 1) (by decide)).1, by decide⟩

/-! ## Fill and the number of combinations -/

theorem assignEntry_of_not_mem {V : Type} (k : ParamName) (v : V) (l : List (ParamName × V))
    (h : k ∉ l.map Prod.fst) : assignEntry k v l = l ++ [(k, v)] := by
  induction l with
  | nil => rfl
  | cons e rest ih =>
    obtain ⟨k0, v0⟩ := e
    simp only [List.map_cons, List.mem_cons, not_or] at h
    have h0 : ¬ k0 = k := fun e => h.1 e.symm
    simp only [assignEntry, if_neg h0, ih h.2, List.cons_append]

namespace GoMap
variable {V : Type}

theorem entries_fillAll (m : GoMap V) (l : List (ParamName × V))
    (hl : (l.map Prod.fst).Nodup) :
    (m.fillAll l).entries = m.entries ++ l.filter (fun kv => (m.find? kv.1).isNone) := by
  induction l generalizing m with
  | nil => simp [fillAll]
  | cons e rest ih =>
    simp only [List.map_cons, List.nodup_cons] at hl
    cases h0 : m.find? e.1 with
    | none =>
      have ih' := ih (m.assign e.1 e.2) hl.2
      have hk : e.1 ∉ m.entries.map Prod.fst := (find?_eq_none_iff m e.1).1 h0
      have hfilter : rest.filter (fun kv => ((m.assign e.1 e.2).find? kv.1).isNone) =
          rest.filter (fun kv => (m.find? kv.1).isNone) := by
        apply List.filter_congr
        intro kv hkv
        have hne : kv.1 ≠ e.1 := fun heq =>
          hl.1 (List.mem_map.2 ⟨kv, hkv, heq⟩)
        rw [find?_assign_ne m e.1 kv.1 e.2 hne]
      simp only [fillAll, List.foldl_cons, h0] at ih' ⊢
      rw [ih', hfilter]
      show assignEntry e.1 e.2 m.entries ++ _ = _
      rw [assignEntry_of_not_mem e.1 e.2 m.entries hk, List.filter_cons, h0]
      simp
    | some w =>
      have ih' := ih m hl.2
      simp only [fillAll, List.foldl_cons, h0] at ih' ⊢
      rw [ih', List.filter_cons, h0]
      simp

end GoMap

/-- The product of the lengths of the candidate sequences of `d`, over the keys of `d` that
are not keys of `g`. -/
def ParamsGrid.addedProduct (g d : ParamsGrid) : Int :=
  ((d.entries.filter (fun kv => (g.find? kv.1).isNone)).map
    (fun kv => (kv.2.length : Int))).prod

theorem exactProduct_fillRef (s : Store (List Value)) (g : Ref) (d : MapRef)
    (hg : s.Valid g) :
    ParamsGrid.exactProduct ((ParamsGrid.fillRef s g (s.contents d).entries).read g) =
      ParamsGrid.exactProduct (s.read g) *
        ParamsGrid.addedProduct (s.read g) (s.contents d) := by
  have hread : (ParamsGrid.fillRef s g (s.contents d).entries).read g =
      (s.read g).fillAll (s.contents d).entries :=
    ParamsGrid.read_fill_self s g (s.contents d).entries hg
  unfold ParamsGrid.exactProduct ParamsGrid.addedProduct
  rw [hread, GoMap.entries_fillAll _ _ (s.contents d).nodup, List.map_append, List.prod_append]

theorem addedProduct_nonneg (g d : ParamsGrid) : 0 ≤ ParamsGrid.addedProduct g d := by
  unfold ParamsGrid.addedProduct
  apply List.prod_nonneg
  intro a ha
  simp only [List.mem_map] at ha
  obtain ⟨kv, _, rfl⟩ := ha
  exact Int.ofNat_nonneg _

theorem addedProduct_of_bound (g d : ParamsGrid) (h : ∀ k ∈ d.keys, k ∈ g.keys) :
    ParamsGrid.addedProduct g d = 1 := by
  unfold ParamsGrid.addedProduct
  have : d.entries.filter (fun kv => (g.find? kv.1).isNone) = [] := by
    rw [List.filter_eq_nil_iff]
    intro kv hkv
    have hk : kv.1 ∈ g.keys := h kv.1 (List.mem_map.2 ⟨kv, hkv, rfl⟩)
    obtain ⟨v, hv⟩ := (GoMap.mem_keys_iff g kv.1).1 hk
    simp [hv]
  rw [this]
  rfl

/-- C18, as stated, fails: for a receiver that is the nil map and the defaults
`{A: [9, 9, 9], B: [5, 6]}` the call panics.  The receiver has 1 combination before the call
and the added dimensions have product 6, yet the receiver is not changed and keeps 1. -/
theorem numCombinations_nil_receiver_after_fill :
    ParamsGrid.Fill exampleGridStore .nil (.ref 1) = none ∧
      ParamsGrid.NumCombinations (exampleGridStore.contents .nil) = 1 ∧
      ParamsGrid.NumCombinations (exampleGridStore.contents .nil) *
        ParamsGrid.addedProduct (exampleGridStore.contents .nil)
          (exampleGridStore.contents (.ref 1)) = 6 :=
  ⟨rfl, by decide, by decide⟩

/-- C18, amended: for a receiver that is an allocated map `Fill` multiplies the number of
combinations by the added dimensions only.  The call returns; the product of the lengths
after it is the product before it times the product over the keys of `_default` that the
receiver lacked; `NumCombinations` after the call is `NumCombinations` before it times that
product, in `int` arithmetic always and exactly when the product after the call is below
`2 ^ 63`; and it is unchanged when every key of `_default` was a key of the receiver. -/
theorem fill_multiplies_combinations (s : Store (List Value)) (g : Ref) (d : MapRef)
    (hg : s.Valid g) :
    ∃ s', ParamsGrid.Fill s (.ref g) d = some s' ∧
      ParamsGrid.exactProduct (s'.read g) =
        ParamsGrid.exactProduct (s.read g) *
          ParamsGrid.addedProduct (s.read g) (s.contents d) ∧
      ParamsGrid.NumCombinations (s'.read g) =
        wrapSigned intSize
          (ParamsGrid.NumCombinations (s.read g) *
            ParamsGrid.addedProduct (s.read g) (s.contents d)) ∧
      (ParamsGrid.exactProduct (s'.read g) < 2 ^ 63 →
        ParamsGrid.NumCombinations (s'.read g) =
          ParamsGrid.NumCombinations (s.read g) *
            ParamsGrid.addedProduct (s.read g) (s.contents d)) ∧
      ((∀ k ∈ (s.contents d).keys, k ∈ (s.read g).keys) →
        ParamsGrid.NumCombinations (s'.read g) = ParamsGrid.NumCombinations (s.read g)) := by
  have hprod := exactProduct_fillRef s g d hg
  have hA := addedProduct_nonneg (s.read g) (s.contents d)
  have hP := exactProduct_nonneg (s.read g)
  have hwrap : ParamsGrid.NumCombinations
        ((ParamsGrid.fillRef s g (s.contents d).entries).read g) =
      wrapSigned intSize
        (ParamsGrid.NumCombinations (s.read g) *
          ParamsGrid.addedProduct (s.read g) (s.contents d)) := by
    rw [ParamsGrid.numCombinations_eq_wrap, hprod, ParamsGrid.numCombinations_eq_wrap (s.read g)]
    exact wrapSigned_congr intSize _ _ ((wrapSigned_modEq intSize _).mul_right _).symm
  refine ⟨_, ParamsGrid.fill_ref s g d hg, hprod, hwrap, ?_, ?_⟩
  · intro hlt
    rw [ParamsGrid.numCombinations_eq_wrap, hprod]
    rw [hprod] at hlt
    have h0 : 0 ≤ ParamsGrid.exactProduct (s.read g) *
        ParamsGrid.addedProduct (s.read g) (s.contents d) := mul_nonneg hP hA
    have hpow : (0 : Int) ≤ (2 : Int) ^ (intSize - 1) := by positivity
    have hself : wrapSigned intSize
        (ParamsGrid.exactProduct (s.read g) *
          ParamsGrid.addedProduct (s.read g) (s.contents d)) =
        ParamsGrid.exactProduct (s.read g) *
          ParamsGrid.addedProduct (s.read g) (s.contents d) :=
      wrapSigned_eq_self intSize (by decide) _ ⟨by omega, by simpa [intSize] using hlt⟩
    rw [hself]
    by_cases hzero : ParamsGrid.addedProduct (s.read g) (s.contents d) = 0
    · rw [hzero, mul_zero, mul_zero]
    · have h1 : 1 ≤ ParamsGrid.addedProduct (s.read g) (s.contents d) := by omega
      have hle : ParamsGrid.exactProduct (s.read g) ≤
          ParamsGrid.exactProduct (s.read g) *
            ParamsGrid.addedProduct (s.read g) (s.contents d) := by
        nlinarith
      have hlt' : ParamsGrid.exactProduct (s.read g) < 2 ^ 63 := lt_of_le_of_lt hle hlt
      have hg' : ParamsGrid.NumCombinations (s.read g) = ParamsGrid.exactProduct (s.read g) := by
        rw [ParamsGrid.numCombinations_eq_wrap]
        exact wrapSigned_eq_self intSize (by decide) _ ⟨by omega, by simpa [intSize] using hlt'⟩
      rw [hg']
  · intro hall
    rw [hwrap, addedProduct_of_bound _ _ hall, mul_one, ParamsGrid.numCombinations_eq_wrap]
    exact wrapSigned_congr intSize _ _ (wrapSigned_modEq intSize _)

/-- Witness of the amended C18: `{A: [1, 2]}` has 2 combinations; `Fill` with
`{A: [9, 9, 9], B: [5, 6]}` returns, adds the dimension `B` of 2 candidates only, and the
receiver has 4 combinations. -/
theorem fill_multiplies_combinations_witness :
    exampleGridStore.Valid 0 ∧
      ParamsGrid.NumCombinations (exampleGridStore.read 0) = 2 ∧
      ParamsGrid.addedProduct (exampleGridStore.read 0) (exampleGridStore.contents (.ref 1)) = 2 ∧
      (∃ s', ParamsGrid.Fill exampleGridStore (.ref 0) (.ref 1) = some s' ∧
        ParamsGrid.exactProduct (s'.read 0) < 2 ^ 63 ∧
        ParamsGrid.NumCombinations (s'.read 0) = 4) := by
  obtain ⟨s', hs, hprod, _, hexact, _⟩ :=
    fill_multiplies_combinations exampleGridStore 0 (.ref 1) (by decide)
  have hlt : ParamsGrid.exactProduct (s'.read 0) < 2 ^ 63 := by
    rw [hprod]
    decide
  exact ⟨by decide, by decide, by decide, s', hs, hlt, (hexact hlt).trans (by decide)⟩

/-! ## Algebra of Overwrite -/

namespace Params

theorem valid_overwrite (s : Store Value) (p q r : Ref) (hr : s.Valid r) :
    (Overwrite s p q).1.Valid r := by
  show ((s.make.1.storeAll s.make.2 (s.make.1.read p).entries).storeAll s.make.2
      ((s.make.1.storeAll s.make.2 (s.make.1.read p).entries).read q).entries).Valid r
  rw [Store.valid_storeAll, Store.valid_storeAll]
  exact s.valid_make r hr

theorem valid_overwrite_result (s : Store Value) (p q : Ref) :
    (Overwrite s p q).1.Valid (Overwrite s p q).2 := by
  show ((s.make.1.storeAll s.make.2 (s.make.1.read p).entries).storeAll s.make.2
      ((s.make.1.storeAll s.make.2 (s.make.1.read p).entries).read q).entries).Valid s.make.2
  rw [Store.valid_storeAll, Store.valid_storeAll]
  exact s.valid_make_new

theorem find?_copy (s : Store Value) (p : Ref) (hp : s.Valid p) (k : ParamName) :
    ((Copy s p).1.read (Copy s p).2).find? k = (s.read p).find? k := by
  rw [read_copy s p hp, GoMap.find?_assignAll_empty _ (s.read p).nodup]
  rfl

/-- The map that `Overwrite` returns, as it stands after the call. -/
def merged (s : Store Value) (parameters params : Ref) : Params :=
  (Overwrite s parameters params).1.read (Overwrite s parameters params).2

end Params

/-- C20: `Overwrite` is an idempotent monoid operation on the bindings of `Params`, with the
map without keys as identity.  At every name, merging with the empty map on either side gives
the binding of `p`, and so does `Copy`; merging `p` with itself gives the binding of `p`; and
merging `p` with `q` and the result with `r` gives the same binding as merging `p` with the
result of merging `q` with `r`.  It is not commutative: `{A: 1, B: 2}` and `{B: 3, C: 4}` merged
in the two orders bind `B` differently. -/
theorem overwrite_idempotent_monoid (s : Store Value) (p q r e : Ref) (hp : s.Valid p)
    (hq : s.Valid q) (hr : s.Valid r) (he : s.Valid e) (hempty : (s.read e).keys = [])
    (k : ParamName) :
    (Params.merged s p e).find? k = (s.read p).find? k ∧
      ((Params.Copy s p).1.read (Params.Copy s p).2).find? k = (s.read p).find? k ∧
      (Params.merged s e p).find? k = (s.read p).find? k ∧
      (Params.merged s p p).find? k = (s.read p).find? k ∧
      (Params.merged (Params.Overwrite s p q).1 (Params.Overwrite s p q).2 r).find? k =
        (Params.merged (Params.Overwrite s q r).1 p (Params.Overwrite s q r).2).find? k ∧
      (Params.merged exampleStore 0 1).find? "B" ≠ (Params.merged exampleStore 1 0).find? "B" := by
  have hnone : (s.read e).find? k = none := by
    rw [GoMap.find?_eq_none_iff, hempty]
    exact List.not_mem_nil k
  refine ⟨?_, Params.find?_copy s p hp k, ?_, ?_, ?_, by decide⟩
  · unfold Params.merged
    rw [Params.find?_overwrite s p e hp he, hnone]
    rfl
  · unfold Params.merged
    rw [Params.find?_overwrite s e p he hp, hnone]
    cases (s.read p).find? k <;> rfl
  · unfold Params.merged
    rw [Params.find?_overwrite s p p hp hp]
    cases (s.read p).find? k <;> rfl
  · unfold Params.merged
    rw [Params.find?_overwrite _ _ r (Params.valid_overwrite_result s p q)
        (Params.valid_overwrite s p q r hr),
      Params.find?_overwrite _ p _ (Params.valid_overwrite s q r p hp)
        (Params.valid_overwrite_result s q r),
      Params.find?_overwrite s p q hp hq, Params.find?_overwrite s q r hq hr,
      Params.overwrite_frame s p q r hr, Params.overwrite_frame s q r p hp]
    cases (s.read r).find? k <;> cases (s.read q).find? k <;> cases (s.read p).find? k <;> rfl

/-- A store with `{A: 1, B: 2}` at reference 0, `{B: 3, C: 4}` at reference 1 and a map
without keys at reference 2. -/
def exampleStoreWithEmpty : Store Value :=
  ⟨exampleStore.cells ++ [GoMap.empty]⟩

/-- Witness of C20: with `p = {A: 1, B: 2}`, `q = r = {B: 3, C: 4}` and the empty map, merging
`p` with the empty map binds `B` to 2, and both groupings of `p`, `q`, `r` bind `B` to 3. -/
theorem overwrite_idempotent_monoid_witness :
    exampleStoreWithEmpty.Valid 0 ∧ exampleStoreWithEmpty.Valid 1 ∧
      exampleStoreWithEmpty.Valid 2 ∧ (exampleStoreWithEmpty.read 2).keys = [] ∧
      (Params.merged exampleStoreWithEmpty 0 2).find? "B" = some (.int ⟨2, by decide⟩) ∧
      (Params.merged (Params.Overwrite exampleStoreWithEmpty 1 1).1 0
        (Params.Overwrite exampleStoreWithEmpty 1 1).2).find? "B" = some (.int ⟨3, by decide⟩) :=
  have h := overwrite_idempotent_monoid exampleStoreWithEmpty 0 1 1 2 (by decide) (by decide)
    (by decide) (by decide) (by decide) "B"
  ⟨by decide, by decide, by decide, by decide, h.1.trans (by decide),
    h.2.2.2.2.1.symm.trans (by decide)⟩

end Gorse
